import Mathlib

/-!
Shallow embedding of the asynchronous job-queue core of the AI-Summarizer
repository (`background_jobs.py`, together with the `Note` model of
`models.py` and the one call site of `add_job` in `main.py`).

Modelling conventions:

* The Python `dict` of jobs (insertion ordered, unique keys) is a
  `List Job`; key update rewrites the matching entry in place, key
  insertion appends.
* The external Note Store is a `List NoteRec`; `Note.get`/`save` pairs
  become in-place functional updates of the matching record.
* Machine effects that do not touch manager state (logging, the 5 second
  `asyncio.sleep`) are not part of the state.
* The external summarization call, and any exception raised inside one
  invocation of the `summarize_note` handler, are abstracted by a
  `HandlerOutcome` oracle supplied to each scan: the handler either runs
  to completion returning a summary string, or raises at some point
  (`failure pw`, where `pw` records whether the initial `PROCESSING`
  write to the Note had already happened when the error was raised).
* `asyncio.create_task(self._process_jobs())` in `start` is modelled by
  the counter `loopTasksLaunched`: the number of scheduling-loop tasks
  created so far.  A launched task only ever exits by observing
  `running = false`, so while `running` stays `true` every launched task
  is still executing its loop.
-/

set_option linter.unusedSectionVars false

namespace AISummarizer

/-- `NoteStatus` enum from `models.py`. -/
inductive NoteStatus where
  | QUEUED
  | PROCESSING
  | DONE
  | FAILED
  deriving DecidableEq

/-- The status strings stored in a job dict by `background_jobs.py`:
`"queued"`, `"processing"`, `"completed"`, `"failed"`. -/
inductive JobStatus where
  | queued
  | processing
  | completed
  | failed
  deriving DecidableEq

/-- One job record, as built by `BackgroundJobManager.add_job`
(lines 24-33 of `background_jobs.py`).  The payload dict
`{"note_id": ..., "raw_text": ...}` is flattened into the two fields the
code reads from it. -/
structure Job where
  id : String
  jobType : String
  noteId : Nat
  rawText : String
  status : JobStatus
  createdAt : Nat
  attempts : Nat
  maxAttempts : Nat
  deriving DecidableEq

/-- One row of the external Note Store (`Note` model in `models.py`);
only the fields the job core touches: `status` and `summary`. -/
structure NoteRec where
  id : Nat
  status : NoteStatus
  summary : Option String
  deriving DecidableEq

/-- State of a `BackgroundJobManager` plus the Note Store it writes to. -/
structure ManagerState where
  jobs : List Job
  notes : List NoteRec
  running : Bool
  loopTasksLaunched : Nat
  deriving DecidableEq

/-- Fresh manager (`__init__`: empty job dict, `running = False`) next to
an empty Note Store. -/
def initialState : ManagerState :=
  { jobs := [], notes := [], running := false, loopTasksLaunched := 0 }

/-- In-place update of every entry of a keyed list whose key is `k`. -/
def updKey {α κ : Type} [DecidableEq κ] (key : α → κ) (l : List α) (k : κ)
    (f : α → α) : List α :=
  l.map fun a => if key a = k then f a else a

/-- In-place update of every job entry whose key is `jid` (a Python dict
holds at most one). -/
def updJobs (jobs : List Job) (jid : String) (f : Job → Job) : List Job :=
  updKey Job.id jobs jid f

/-- In-place update of every note row whose id is `nid`. -/
def updNotes (notes : List NoteRec) (nid : Nat) (f : NoteRec → NoteRec) :
    List NoteRec :=
  updKey NoteRec.id notes nid f

/-- Dictionary lookup `self.jobs.get(job_id)`. -/
def findJob (s : ManagerState) (jid : String) : Option Job :=
  s.jobs.find? fun j => decide (j.id = jid)

/-- Note Store lookup `Note.get(id=note_id)`. -/
def findNote (s : ManagerState) (nid : Nat) : Option NoteRec :=
  s.notes.find? fun n => decide (n.id = nid)

/-- The status field of the job stored under `jid`, if any. -/
def jobStatusOf (s : ManagerState) (jid : String) : Option JobStatus :=
  (findJob s jid).map Job.status

/-- The status field of the note stored under `nid`, if any. -/
def noteStatusOf (s : ManagerState) (nid : Nat) : Option NoteStatus :=
  (findNote s nid).map NoteRec.status

/-- `start` (lines 17-19): sets `self.running = True` and
unconditionally creates one more task running `self._process_jobs()`. -/
def start (s : ManagerState) : ManagerState :=
  { s with running := true, loopTasksLaunched := s.loopTasksLaunched + 1 }

/-- `stop` (lines 21-22): clears the running flag. -/
def stop (s : ManagerState) : ManagerState :=
  { s with running := false }

/-- The record `add_job` stores: status `"queued"`, `attempts = 0`,
`max_attempts = 3` (lines 25-33).  `now` models `datetime.utcnow()`. -/
def freshJob (jid jtype : String) (nid : Nat) (raw : String) (now : Nat) :
    Job :=
  { id := jid, jobType := jtype, noteId := nid, rawText := raw,
    status := JobStatus.queued, createdAt := now, attempts := 0,
    maxAttempts := 3 }

/-- `add_job` (lines 24-33): `self.jobs[job_id] = {...}` — replaces the
entry if the key exists, appends otherwise; never raises. -/
def add_job (s : ManagerState) (jid jtype : String) (nid : Nat)
    (raw : String) (now : Nat) : ManagerState :=
  if s.jobs.any (fun j => decide (j.id = jid)) then
    { s with jobs := updJobs s.jobs jid (fun _ => freshJob jid jtype nid raw now) }
  else
    { s with jobs := s.jobs ++ [freshJob jid jtype nid raw now] }

/-- Result of `get_job_status`: either the job dict itself or the
sentinel dict `{"status": "not_found"}`. -/
inductive JobView where
  | found (j : Job)
  | notFound
  deriving DecidableEq

/-- The `"status"` field of a `get_job_status` result, as the string the
Python dict holds. -/
def JobView.statusField : JobView → String
  | JobView.found j =>
      match j.status with
      | JobStatus.queued => "queued"
      | JobStatus.processing => "processing"
      | JobStatus.completed => "completed"
      | JobStatus.failed => "failed"
  | JobView.notFound => "not_found"

/-- `get_job_status` (lines 35-36):
`self.jobs.get(job_id, {"status": "not_found"})`. -/
def get_job_status (s : ManagerState) (jid : String) : JobView :=
  match findJob s jid with
  | some j => JobView.found j
  | none => JobView.notFound

/-- Outcome of one invocation of the `summarize_note` handler
(`_process_summarize_job`, lines 70-83), abstracting the external
summarization call and Note Store I/O: `success summary` means the body
ran to completion; `failure pw` means some step raised, with `pw = true`
iff the initial `PROCESSING` note write (line 74) had already
succeeded. -/
inductive HandlerOutcome where
  | success (summary : String)
  | failure (processingWritten : Bool)
  deriving DecidableEq

/-- Per-scan oracle: the outcome of the handler invocation for each job
id dispatched during that scan. -/
def HandlerEnv : Type := String → HandlerOutcome

/-- `Note.create(..., status=QUEUED)` performed by `create_note` in
`main.py` just before it enqueues the matching job. -/
def createNote (s : ManagerState) (nid : Nat) : ManagerState :=
  { s with notes := s.notes ++ [{ id := nid, status := NoteStatus.QUEUED, summary := none }] }

/-- `_update_note_status` (lines 85-88). -/
def noteSetStatus (s : ManagerState) (nid : Nat) (st : NoteStatus) :
    ManagerState :=
  { s with notes := updNotes s.notes nid (fun n => { n with status := st }) }

/-- Lines 78-81 of `_process_summarize_job`: write the summary and set
the note to `DONE`. -/
def noteComplete (s : ManagerState) (nid : Nat) (summary : String) :
    ManagerState :=
  { s with notes := updNotes s.notes nid (fun n => { n with status := NoteStatus.DONE, summary := some summary }) }

/-- `job["status"] = st` on the entry keyed `jid`. -/
def jobSetStatus (s : ManagerState) (jid : String) (st : JobStatus) :
    ManagerState :=
  { s with jobs := updJobs s.jobs jid (fun j => { j with status := st }) }

/-- Lines 50-51: `job["status"] = "processing"; job["attempts"] += 1`. -/
def jobDispatch (s : ManagerState) (jid : String) : ManagerState :=
  { s with jobs := updJobs s.jobs jid (fun j => { j with status := JobStatus.processing, attempts := j.attempts + 1 }) }

/-- Body of the `for job in queued_jobs` loop (lines 44-62) for the job
keyed `jid`, with the handler outcome drawn from `env`:

* if `attempts >= max_attempts` already: mark the job `failed` and the
  note `FAILED` (lines 45-48);
* otherwise mark `processing`, bump `attempts` (lines 50-51), and if the
  type is `"summarize_note"` invoke the handler (lines 53-55): on
  success the handler wrote `PROCESSING`, then the summary and `DONE`,
  and marked the job `completed` (lines 74-83); on failure the early
  note write may have happened, then the except branch (lines 56-62)
  either exhausts the job (`failed` + note `FAILED`) or requeues it.
  A job of any other type invokes no handler and is left `processing`. -/
def processJob (env : HandlerEnv) (s : ManagerState) (jid : String) :
    ManagerState :=
  match findJob s jid with
  | none => s
  | some job =>
    if job.maxAttempts ≤ job.attempts then
      noteSetStatus (jobSetStatus s jid JobStatus.failed) job.noteId NoteStatus.FAILED
    else
      let s1 := jobDispatch s jid
      if job.jobType = "summarize_note" then
        match env jid with
        | HandlerOutcome.success summary =>
            jobSetStatus
              (noteComplete (noteSetStatus s1 job.noteId NoteStatus.PROCESSING)
                job.noteId summary)
              jid JobStatus.completed
        | HandlerOutcome.failure pw =>
            let s2 := if pw then noteSetStatus s1 job.noteId NoteStatus.PROCESSING else s1
            if job.maxAttempts ≤ job.attempts + 1 then
              noteSetStatus (jobSetStatus s2 jid JobStatus.failed) job.noteId NoteStatus.FAILED
            else
              jobSetStatus s2 jid JobStatus.queued
      else s1

/-- The ids of the queued-jobs snapshot taken at line 42. -/
def queuedIds (s : ManagerState) : List String :=
  (s.jobs.filter fun j => decide (j.status = JobStatus.queued)).map Job.id

/-- One complete scan: snapshot the queued jobs, then process each in
order (lines 42-62). -/
def scanStep (env : HandlerEnv) (s : ManagerState) : ManagerState :=
  (queuedIds s).foldl (processJob env) s

/-- A scan aborted by an error in the machinery itself after the first
`k` snapshot jobs were processed; the outer `except` (lines 66-68) eats
the error. -/
def scanStepTrunc (env : HandlerEnv) (k : Nat) (s : ManagerState) :
    ManagerState :=
  ((queuedIds s).take k).foldl (processJob env) s

/-- A sequence of complete scans. -/
def multiScan (envs : List HandlerEnv) (s : ManagerState) : ManagerState :=
  envs.foldl (fun st env => scanStep env st) s

/-- What one iteration of the `while self.running` loop does to the
state: either the scan body runs to completion, or it crashes partway
and the outer `except` logs and continues. -/
inductive IterEvent where
  | normal (env : HandlerEnv)
  | crash (env : HandlerEnv) (k : Nat)

/-- State after one loop iteration driven by `e`. -/
def iterStep : IterEvent → ManagerState → ManagerState
  | IterEvent.normal env, s => scanStep env s
  | IterEvent.crash env k, s => scanStepTrunc env k s

/-- How many iterations of `_process_jobs`'s `while self.running` loop
run, given the (finite) schedule of iteration events: the loop body
executes while the flag is set and exits the first time it is clear. -/
def loopIterations : List IterEvent → ManagerState → Nat
  | [], _ => 0
  | e :: es, s =>
      if s.running then loopIterations es (iterStep e s) + 1 else 0

/-- The manager states that actually arise in the deployed system: the
manager starts empty; `create_note` in `main.py` creates a fresh Note
row (fresh database id, status `QUEUED`) and enqueues a
`"summarize_note"` job under a fresh `uuid4` id referencing it; the
scheduling loop runs complete or crashed scans; `start`/`stop` toggle
the flag. -/
inductive Reachable : ManagerState → Prop where
  | init : Reachable initialState
  | submit {s : ManagerState} (jid : String) (nid : Nat) (raw : String)
      (now : Nat) :
      Reachable s →
      (∀ j ∈ s.jobs, j.id ≠ jid) →
      (∀ j ∈ s.jobs, j.noteId ≠ nid) →
      (∀ n ∈ s.notes, n.id ≠ nid) →
      Reachable (add_job (createNote s nid) jid "summarize_note" nid raw now)
  | scan {s : ManagerState} (env : HandlerEnv) :
      Reachable s → Reachable (scanStep env s)
  | scanCrash {s : ManagerState} (env : HandlerEnv) (k : Nat) :
      Reachable s → Reachable (scanStepTrunc env k s)
  | doStart {s : ManagerState} : Reachable s → Reachable (start s)
  | doStop {s : ManagerState} : Reachable s → Reachable (stop s)

/-- Variant of `processJob` with the scan-start exhaustion branch
(lines 45-48) removed: every found job is dispatched directly.  Used to
express that the removed branch is dead code on reachable states. -/
def processJobDispatchOnly (env : HandlerEnv) (s : ManagerState)
    (jid : String) : ManagerState :=
  match findJob s jid with
  | none => s
  | some job =>
    let s1 := jobDispatch s jid
    if job.jobType = "summarize_note" then
      match env jid with
      | HandlerOutcome.success summary =>
          jobSetStatus
            (noteComplete (noteSetStatus s1 job.noteId NoteStatus.PROCESSING)
              job.noteId summary)
            jid JobStatus.completed
      | HandlerOutcome.failure pw =>
          let s2 := if pw then noteSetStatus s1 job.noteId NoteStatus.PROCESSING else s1
          if job.maxAttempts ≤ job.attempts + 1 then
            noteSetStatus (jobSetStatus s2 jid JobStatus.failed) job.noteId NoteStatus.FAILED
          else
            jobSetStatus s2 jid JobStatus.queued
    else s1

/-- A scan in which no job ever takes the scan-start exhaustion branch. -/
def scanStepDispatchOnly (env : HandlerEnv) (s : ManagerState) :
    ManagerState :=
  (queuedIds s).foldl (processJobDispatchOnly env) s

/-- Job dict keys are pairwise distinct (they are the keys of a Python
dict). -/
def UniqueJobIds (s : ManagerState) : Prop :=
  (s.jobs.map Job.id).Nodup

/-- Note Store primary keys are pairwise distinct. -/
def UniqueNoteIds (s : ManagerState) : Prop :=
  (s.notes.map NoteRec.id).Nodup

/-- Distinct jobs reference distinct notes (each `create_note` call makes
one fresh Note row and one job for it). -/
def UniqueJobNotes (s : ManagerState) : Prop :=
  (s.jobs.map Job.noteId).Nodup

/-- Every job's referenced note exists in the Note Store. -/
def NotesPresent (s : ManagerState) : Prop :=
  ∀ j ∈ s.jobs, j.noteId ∈ s.notes.map NoteRec.id

/-- No job's attempt counter exceeds its max attempts. -/
def AttemptsBounded (s : ManagerState) : Prop :=
  ∀ j ∈ s.jobs, j.attempts ≤ j.maxAttempts

/-- Every queued job still has an attempt left. -/
def QueuedBelowMax (s : ManagerState) : Prop :=
  ∀ j ∈ s.jobs, j.status = JobStatus.queued → j.attempts < j.maxAttempts

/-- Every failed job has exhausted its attempts and its note records the
failure. -/
def FailedSync (s : ManagerState) : Prop :=
  ∀ j ∈ s.jobs, j.status = JobStatus.failed →
    j.attempts = j.maxAttempts ∧ noteStatusOf s j.noteId = some NoteStatus.FAILED

/-- The inductive invariant of the job core. -/
def Inv (s : ManagerState) : Prop :=
  UniqueJobIds s ∧ UniqueNoteIds s ∧ UniqueJobNotes s ∧ NotesPresent s ∧
    AttemptsBounded s ∧ QueuedBelowMax s ∧ FailedSync s

/-- Oracle under which every handler invocation raises after the
`PROCESSING` note write. -/
def demoEnvFail : HandlerEnv := fun _ => HandlerOutcome.failure true

/-- Oracle under which every handler invocation succeeds with summary
`"S"`. -/
def demoEnvOk : HandlerEnv := fun _ => HandlerOutcome.success "S"

/-- One note (id 1) created and one `summarize_note` job (`"j1"`)
enqueued for it, as `create_note` does. -/
def demoSubmit : ManagerState :=
  add_job (createNote initialState 1) "j1" "summarize_note" 1 "text" 0

/-- `demoSubmit` after three scans whose handler invocations all fail:
the job has exhausted its attempts. -/
def demoFailed : ManagerState :=
  scanStep demoEnvFail (scanStep demoEnvFail (scanStep demoEnvFail demoSubmit))

/-- A job of the unhandled type `"reindex"` enqueued for note 1. -/
def demoOther : ManagerState :=
  add_job (createNote initialState 1) "j1" "reindex" 1 "t" 0

section KeyedList

variable {α κ : Type} [DecidableEq κ] {key : α → κ}

theorem updKey_find?_self {l : List α} {k : κ} {f : α → α}
    (hf : ∀ a, key (f a) = key a) :
    (updKey key l k f).find? (fun a => decide (key a = k))
      = (l.find? (fun a => decide (key a = k))).map f := by
  unfold updKey
  rw [List.find?_map]
  have hp : ((fun a => decide (key a = k)) ∘ fun a => if key a = k then f a else a)
      = fun a => decide (key a = k) := by
    funext a
    by_cases h : key a = k
    · simp [h, hf]
    · simp [h]
  rw [hp]
  cases hfind : l.find? (fun a => decide (key a = k)) with
  | none => rfl
  | some a =>
      have ha' : key a = k := by simpa using List.find?_some hfind
      simp [ha']

theorem updKey_find?_ne {l : List α} {k k' : κ} {f : α → α}
    (hf : ∀ a, key (f a) = key a) (hk : k' ≠ k) :
    (updKey key l k f).find? (fun a => decide (key a = k'))
      = l.find? (fun a => decide (key a = k')) := by
  unfold updKey
  rw [List.find?_map]
  have hp : ((fun a => decide (key a = k')) ∘ fun a => if key a = k then f a else a)
      = fun a => decide (key a = k') := by
    funext a
    by_cases h : key a = k
    · simp [h, hf]
    · simp [h]
  rw [hp]
  cases hfind : l.find? (fun a => decide (key a = k')) with
  | none => rfl
  | some a =>
      have ha' : key a = k' := by simpa using List.find?_some hfind
      have hne : key a ≠ k := by rw [ha']; exact hk
      simp [hne]

theorem updKey_map_of_preserves {β : Type} {g : α → β} {l : List α} {k : κ}
    {f : α → α} (hg : ∀ a, g (f a) = g a) :
    (updKey key l k f).map g = l.map g := by
  unfold updKey
  rw [List.map_map]
  apply List.map_congr_left
  intro a _
  by_cases h : key a = k
  · simp [h, hg]
  · simp [h]

theorem mem_updKey {b : α} {l : List α} {k : κ} {f : α → α} :
    b ∈ updKey key l k f ↔ ∃ a, a ∈ l ∧ b = if key a = k then f a else a := by
  unfold updKey
  simp only [List.mem_map]
  constructor
  · rintro ⟨a, ha, rfl⟩
    exact ⟨a, ha, rfl⟩
  · rintro ⟨a, ha, rfl⟩
    exact ⟨a, ha, rfl⟩

theorem updKey_updKey {l : List α} {k : κ} {f g : α → α}
    (hf : ∀ a, key (f a) = key a) :
    updKey key (updKey key l k f) k g = updKey key l k (fun a => g (f a)) := by
  unfold updKey
  rw [List.map_map]
  apply List.map_congr_left
  intro a _
  by_cases h : key a = k
  · simp [h, hf]
  · simp [h]

theorem key_inj_of_nodup {l : List α} {a b : α}
    (hnd : (l.map key).Nodup) (ha : a ∈ l) (hb : b ∈ l)
    (h : key a = key b) : a = b :=
  List.inj_on_of_nodup_map hnd ha hb h

theorem find?_key_self_of_mem {l : List α} {a : α}
    (hnd : (l.map key).Nodup) (ha : a ∈ l) :
    l.find? (fun b => decide (key b = key a)) = some a := by
  induction l with
  | nil => cases ha
  | cons c t ih =>
      by_cases h : key c = key a
      · have hca : c = a := key_inj_of_nodup hnd (List.mem_cons_self c t) ha h
        rw [List.find?_cons_of_pos _ (by simpa using h), hca]
      · rcases List.mem_cons.mp ha with rfl | hat
        · exact absurd rfl h
        · rw [List.find?_cons_of_neg _ (by simpa using h)]
          rw [List.map_cons] at hnd
          exact ih hnd.of_cons hat

theorem updKey_of_forall_ne {l : List α} {k : κ} {f : α → α}
    (h : ∀ a ∈ l, key a ≠ k) : updKey key l k f = l := by
  unfold updKey
  have heq : l.map (fun a => if key a = k then f a else a) = l.map id :=
    List.map_congr_left fun a ha => by simp [h a ha]
  simpa using heq

end KeyedList

theorem findJob_noteSetStatus (s : ManagerState) (nid : Nat)
    (st : NoteStatus) (jid : String) :
    findJob (noteSetStatus s nid st) jid = findJob s jid := rfl

theorem findJob_noteComplete (s : ManagerState) (nid : Nat) (m : String)
    (jid : String) :
    findJob (noteComplete s nid m) jid = findJob s jid := rfl

theorem findNote_jobSetStatus (s : ManagerState) (jid : String)
    (st : JobStatus) (nid : Nat) :
    findNote (jobSetStatus s jid st) nid = findNote s nid := rfl

theorem findNote_jobDispatch (s : ManagerState) (jid : String) (nid : Nat) :
    findNote (jobDispatch s jid) nid = findNote s nid := rfl

theorem findJob_jobSetStatus_self (s : ManagerState) (jid : String)
    (st : JobStatus) :
    findJob (jobSetStatus s jid st) jid
      = (findJob s jid).map (fun j => { j with status := st }) :=
  updKey_find?_self (fun _ => rfl)

theorem findJob_jobSetStatus_ne (s : ManagerState) (jid : String)
    (st : JobStatus) {jid' : String} (h : jid' ≠ jid) :
    findJob (jobSetStatus s jid st) jid' = findJob s jid' :=
  updKey_find?_ne (fun _ => rfl) h

theorem findJob_jobDispatch_self (s : ManagerState) (jid : String) :
    findJob (jobDispatch s jid) jid
      = (findJob s jid).map
          (fun j => { j with status := JobStatus.processing, attempts := j.attempts + 1 }) :=
  updKey_find?_self (fun _ => rfl)

theorem findJob_jobDispatch_ne (s : ManagerState) (jid : String)
    {jid' : String} (h : jid' ≠ jid) :
    findJob (jobDispatch s jid) jid' = findJob s jid' :=
  updKey_find?_ne (fun _ => rfl) h

theorem findNote_noteSetStatus_self (s : ManagerState) (nid : Nat)
    (st : NoteStatus) :
    findNote (noteSetStatus s nid st) nid
      = (findNote s nid).map (fun n => { n with status := st }) :=
  updKey_find?_self (fun _ => rfl)

theorem findNote_noteSetStatus_ne (s : ManagerState) (nid : Nat)
    (st : NoteStatus) {nid' : Nat} (h : nid' ≠ nid) :
    findNote (noteSetStatus s nid st) nid' = findNote s nid' :=
  updKey_find?_ne (fun _ => rfl) h

theorem findNote_noteComplete_self (s : ManagerState) (nid : Nat)
    (m : String) :
    findNote (noteComplete s nid m) nid
      = (findNote s nid).map
          (fun n => { n with status := NoteStatus.DONE, summary := some m }) :=
  updKey_find?_self (fun _ => rfl)

theorem findNote_noteComplete_ne (s : ManagerState) (nid : Nat)
    (m : String) {nid' : Nat} (h : nid' ≠ nid) :
    findNote (noteComplete s nid m) nid' = findNote s nid' :=
  updKey_find?_ne (fun _ => rfl) h

theorem processJob_not_found {env : HandlerEnv} {s : ManagerState}
    {jid : String} (h : findJob s jid = none) :
    processJob env s jid = s := by
  unfold processJob
  rw [h]

theorem processJob_exhausted {env : HandlerEnv} {s : ManagerState}
    {jid : String} {job : Job} (h : findJob s jid = some job)
    (hex : job.maxAttempts ≤ job.attempts) :
    processJob env s jid
      = noteSetStatus (jobSetStatus s jid JobStatus.failed) job.noteId
          NoteStatus.FAILED := by
  unfold processJob
  rw [h]
  simp [hex]

theorem processJob_success {env : HandlerEnv} {s : ManagerState}
    {jid : String} {job : Job} {m : String} (h : findJob s jid = some job)
    (hex : ¬ job.maxAttempts ≤ job.attempts)
    (ht : job.jobType = "summarize_note")
    (he : env jid = HandlerOutcome.success m) :
    processJob env s jid
      = jobSetStatus
          (noteComplete
            (noteSetStatus (jobDispatch s jid) job.noteId NoteStatus.PROCESSING)
            job.noteId m)
          jid JobStatus.completed := by
  unfold processJob
  rw [h]
  simp [hex, ht, he]

theorem processJob_fail_exhaust {env : HandlerEnv} {s : ManagerState}
    {jid : String} {job : Job} {pw : Bool} (h : findJob s jid = some job)
    (hex : ¬ job.maxAttempts ≤ job.attempts)
    (ht : job.jobType = "summarize_note")
    (he : env jid = HandlerOutcome.failure pw)
    (h2 : job.maxAttempts ≤ job.attempts + 1) :
    processJob env s jid
      = noteSetStatus
          (jobSetStatus
            (if pw then
              noteSetStatus (jobDispatch s jid) job.noteId NoteStatus.PROCESSING
            else jobDispatch s jid)
            jid JobStatus.failed)
          job.noteId NoteStatus.FAILED := by
  unfold processJob
  rw [h]
  simp [hex, ht, he, h2]

theorem processJob_fail_requeue {env : HandlerEnv} {s : ManagerState}
    {jid : String} {job : Job} {pw : Bool} (h : findJob s jid = some job)
    (hex : ¬ job.maxAttempts ≤ job.attempts)
    (ht : job.jobType = "summarize_note")
    (he : env jid = HandlerOutcome.failure pw)
    (h2 : ¬ job.maxAttempts ≤ job.attempts + 1) :
    processJob env s jid
      = jobSetStatus
          (if pw then
            noteSetStatus (jobDispatch s jid) job.noteId NoteStatus.PROCESSING
          else jobDispatch s jid)
          jid JobStatus.queued := by
  unfold processJob
  rw [h]
  simp [hex, ht, he, h2]

theorem processJob_other_type {env : HandlerEnv} {s : ManagerState}
    {jid : String} {job : Job} (h : findJob s jid = some job)
    (hex : ¬ job.maxAttempts ≤ job.attempts)
    (ht : job.jobType ≠ "summarize_note") :
    processJob env s jid = jobDispatch s jid := by
  unfold processJob
  rw [h]
  simp [hex, ht]

theorem jobs_ids_jobSetStatus (s : ManagerState) (jid : String)
    (st : JobStatus) :
    (jobSetStatus s jid st).jobs.map Job.id = s.jobs.map Job.id :=
  updKey_map_of_preserves (fun _ => rfl)

theorem jobs_ids_jobDispatch (s : ManagerState) (jid : String) :
    (jobDispatch s jid).jobs.map Job.id = s.jobs.map Job.id :=
  updKey_map_of_preserves (fun _ => rfl)

theorem jobs_noteIds_jobSetStatus (s : ManagerState) (jid : String)
    (st : JobStatus) :
    (jobSetStatus s jid st).jobs.map Job.noteId = s.jobs.map Job.noteId :=
  updKey_map_of_preserves (fun _ => rfl)

theorem jobs_noteIds_jobDispatch (s : ManagerState) (jid : String) :
    (jobDispatch s jid).jobs.map Job.noteId = s.jobs.map Job.noteId :=
  updKey_map_of_preserves (fun _ => rfl)

theorem notes_ids_noteSetStatus (s : ManagerState) (nid : Nat)
    (st : NoteStatus) :
    (noteSetStatus s nid st).notes.map NoteRec.id = s.notes.map NoteRec.id :=
  updKey_map_of_preserves (fun _ => rfl)

theorem notes_ids_noteComplete (s : ManagerState) (nid : Nat) (m : String) :
    (noteComplete s nid m).notes.map NoteRec.id = s.notes.map NoteRec.id :=
  updKey_map_of_preserves (fun _ => rfl)

theorem findJob_mem_unique {s : ManagerState} {jid : String} {job j0 : Job}
    (hids : UniqueJobIds s) (h : findJob s jid = some job)
    (hj0 : j0 ∈ s.jobs) (hid : j0.id = jid) : j0 = job := by
  have hmem := List.mem_of_find?_eq_some h
  have hjobid : job.id = jid := by simpa using List.find?_some h
  exact key_inj_of_nodup hids hj0 hmem (by rw [hid, hjobid])

theorem findJob_id_of_some {s : ManagerState} {jid : String} {job : Job}
    (h : findJob s jid = some job) : job.id = jid := by
  simpa using List.find?_some h

theorem findJob_mem_of_some {s : ManagerState} {jid : String} {job : Job}
    (h : findJob s jid = some job) : job ∈ s.jobs :=
  List.mem_of_find?_eq_some h

theorem findNote_of_present {s : ManagerState} {nid : Nat}
    (h : nid ∈ s.notes.map NoteRec.id) :
    ∃ n, findNote s nid = some n ∧ n.id = nid := by
  have hsome : (s.notes.find? (fun n => decide (n.id = nid))).isSome := by
    rw [List.find?_isSome]
    rcases List.mem_map.mp h with ⟨n, hn, hid⟩
    exact ⟨n, hn, by simpa using hid⟩
  rcases Option.isSome_iff_exists.mp hsome with ⟨n, hn⟩
  exact ⟨n, hn, by simpa using List.find?_some hn⟩

theorem noteStatusOf_noteSetStatus_self {s : ManagerState} {nid : Nat}
    (st : NoteStatus) (h : nid ∈ s.notes.map NoteRec.id) :
    noteStatusOf (noteSetStatus s nid st) nid = some st := by
  rcases findNote_of_present h with ⟨n, hn, _⟩
  rw [noteStatusOf, findNote_noteSetStatus_self, hn]
  rfl

theorem updJobs_dispatch_then_status (jobs : List Job) (jid : String)
    (st : JobStatus) :
    updKey Job.id
        (updKey Job.id jobs jid
          (fun j => { j with status := JobStatus.processing, attempts := j.attempts + 1 }))
        jid (fun j => { j with status := st })
      = updKey Job.id jobs jid
          (fun j => { j with status := st, attempts := j.attempts + 1 }) :=
  by
  refine Eq.trans (updKey_updKey ?_) rfl
  intro a
  rfl

theorem updNotes_processing_then_done (notes : List NoteRec) (nid : Nat)
    (m : String) :
    updKey NoteRec.id
        (updKey NoteRec.id notes nid (fun n => { n with status := NoteStatus.PROCESSING }))
        nid (fun n => { n with status := NoteStatus.DONE, summary := some m })
      = updKey NoteRec.id notes nid
          (fun n => { n with status := NoteStatus.DONE, summary := some m }) :=
  by
  refine Eq.trans (updKey_updKey ?_) rfl
  intro a
  rfl

theorem updNotes_processing_then_failed (notes : List NoteRec) (nid : Nat) :
    updKey NoteRec.id
        (updKey NoteRec.id notes nid (fun n => { n with status := NoteStatus.PROCESSING }))
        nid (fun n => { n with status := NoteStatus.FAILED })
      = updKey NoteRec.id notes nid (fun n => { n with status := NoteStatus.FAILED }) :=
  by
  refine Eq.trans (updKey_updKey ?_) rfl
  intro a
  rfl

theorem inv_branch_exhausted {s : ManagerState} {jid : String} {job : Job}
    (hInv : Inv s) (h : findJob s jid = some job)
    (hex : job.maxAttempts ≤ job.attempts) :
    Inv (noteSetStatus (jobSetStatus s jid JobStatus.failed) job.noteId
          NoteStatus.FAILED) := by
  obtain ⟨hids, hnids, hjn, hpres, hbd, hq, hf⟩ := hInv
  set r := noteSetStatus (jobSetStatus s jid JobStatus.failed) job.noteId
    NoteStatus.FAILED with hr
  have hjobs : r.jobs
      = updKey Job.id s.jobs jid (fun j => { j with status := JobStatus.failed }) := rfl
  have hnotes : r.notes
      = updKey NoteRec.id s.notes job.noteId (fun n => { n with status := NoteStatus.FAILED }) := rfl
  have hjids : r.jobs.map Job.id = s.jobs.map Job.id := by
    rw [hjobs]
    exact updKey_map_of_preserves (fun _ => rfl)
  have hjnotes : r.jobs.map Job.noteId = s.jobs.map Job.noteId := by
    rw [hjobs]
    exact updKey_map_of_preserves (fun _ => rfl)
  have hnid : r.notes.map NoteRec.id = s.notes.map NoteRec.id := by
    rw [hnotes]
    exact updKey_map_of_preserves (fun _ => rfl)
  have hjob_mem := findJob_mem_of_some h
  have hjob_id := findJob_id_of_some h
  refine ⟨?_, ?_, ?_, ?_, ?_, ?_, ?_⟩
  · rw [UniqueJobIds, hjids]
    exact hids
  · rw [UniqueNoteIds, hnid]
    exact hnids
  · rw [UniqueJobNotes, hjnotes]
    exact hjn
  · intro k hk
    rw [hnid]
    rw [hjobs] at hk
    rcases mem_updKey.mp hk with ⟨j0, hj0, rfl⟩
    by_cases hcase : j0.id = jid
    · rw [if_pos hcase]
      exact hpres j0 hj0
    · rw [if_neg hcase]
      exact hpres j0 hj0
  · intro k hk
    rw [hjobs] at hk
    rcases mem_updKey.mp hk with ⟨j0, hj0, rfl⟩
    by_cases hcase : j0.id = jid
    · rw [if_pos hcase]
      exact hbd j0 hj0
    · rw [if_neg hcase]
      exact hbd j0 hj0
  · intro k hk hqk
    rw [hjobs] at hk
    rcases mem_updKey.mp hk with ⟨j0, hj0, rfl⟩
    by_cases hcase : j0.id = jid
    · rw [if_pos hcase] at hqk
      simp at hqk
    · rw [if_neg hcase] at hqk ⊢
      exact hq j0 hj0 hqk
  · intro k hk hfk
    rw [hjobs] at hk
    rcases mem_updKey.mp hk with ⟨j0, hj0, rfl⟩
    by_cases hcase : j0.id = jid
    · obtain rfl : j0 = job := findJob_mem_unique hids h hj0 hcase
      rw [if_pos hcase]
      refine ⟨le_antisymm (hbd j0 hj0) hex, ?_⟩
      have hp : j0.noteId ∈ (jobSetStatus s jid JobStatus.failed).notes.map NoteRec.id :=
        hpres j0 hj0
      exact noteStatusOf_noteSetStatus_self _ hp
    · rw [if_neg hcase] at hfk ⊢
      rcases hf j0 hj0 hfk with ⟨h1, h2⟩
      refine ⟨h1, ?_⟩
      have hne : j0.noteId ≠ job.noteId := by
        intro heq
        have heq' : j0 = job := key_inj_of_nodup hjn hj0 hjob_mem heq
        rw [heq'] at hcase
        exact hcase hjob_id
      have hfind : findNote r j0.noteId = findNote s j0.noteId := by
        rw [hr]
        rw [findNote_noteSetStatus_ne _ _ _ hne]
        rfl
      rw [noteStatusOf, hfind]
      exact h2

theorem inv_branch_success {s : ManagerState} {jid : String} {job : Job}
    (m : String) (hInv : Inv s) (h : findJob s jid = some job)
    (hex : ¬ job.maxAttempts ≤ job.attempts) :
    Inv (jobSetStatus
          (noteComplete
            (noteSetStatus (jobDispatch s jid) job.noteId NoteStatus.PROCESSING)
            job.noteId m)
          jid JobStatus.completed) := by
  obtain ⟨hids, hnids, hjn, hpres, hbd, hq, hf⟩ := hInv
  set r := jobSetStatus
    (noteComplete
      (noteSetStatus (jobDispatch s jid) job.noteId NoteStatus.PROCESSING)
      job.noteId m)
    jid JobStatus.completed with hr
  have hjobs : r.jobs
      = updKey Job.id s.jobs jid
          (fun j => { j with status := JobStatus.completed, attempts := j.attempts + 1 }) :=
    updJobs_dispatch_then_status s.jobs jid JobStatus.completed
  have hnotes : r.notes
      = updKey NoteRec.id s.notes job.noteId
          (fun n => { n with status := NoteStatus.DONE, summary := some m }) :=
    updNotes_processing_then_done s.notes job.noteId m
  have hjids : r.jobs.map Job.id = s.jobs.map Job.id := by
    rw [hjobs]
    exact updKey_map_of_preserves (fun _ => rfl)
  have hjnotes : r.jobs.map Job.noteId = s.jobs.map Job.noteId := by
    rw [hjobs]
    exact updKey_map_of_preserves (fun _ => rfl)
  have hnid : r.notes.map NoteRec.id = s.notes.map NoteRec.id := by
    rw [hnotes]
    exact updKey_map_of_preserves (fun _ => rfl)
  have hjob_mem := findJob_mem_of_some h
  have hjob_id := findJob_id_of_some h
  refine ⟨?_, ?_, ?_, ?_, ?_, ?_, ?_⟩
  · rw [UniqueJobIds, hjids]
    exact hids
  · rw [UniqueNoteIds, hnid]
    exact hnids
  · rw [UniqueJobNotes, hjnotes]
    exact hjn
  · intro k hk
    rw [hnid]
    rw [hjobs] at hk
    rcases mem_updKey.mp hk with ⟨j0, hj0, rfl⟩
    by_cases hcase : j0.id = jid
    · rw [if_pos hcase]
      exact hpres j0 hj0
    · rw [if_neg hcase]
      exact hpres j0 hj0
  · intro k hk
    rw [hjobs] at hk
    rcases mem_updKey.mp hk with ⟨j0, hj0, rfl⟩
    by_cases hcase : j0.id = jid
    · obtain rfl : j0 = job := findJob_mem_unique hids h hj0 hcase
      rw [if_pos hcase]
      show j0.attempts + 1 ≤ j0.maxAttempts
      omega
    · rw [if_neg hcase]
      exact hbd j0 hj0
  · intro k hk hqk
    rw [hjobs] at hk
    rcases mem_updKey.mp hk with ⟨j0, hj0, rfl⟩
    by_cases hcase : j0.id = jid
    · rw [if_pos hcase] at hqk
      simp at hqk
    · rw [if_neg hcase] at hqk ⊢
      exact hq j0 hj0 hqk
  · intro k hk hfk
    rw [hjobs] at hk
    rcases mem_updKey.mp hk with ⟨j0, hj0, rfl⟩
    by_cases hcase : j0.id = jid
    · rw [if_pos hcase] at hfk
      simp at hfk
    · rw [if_neg hcase] at hfk ⊢
      rcases hf j0 hj0 hfk with ⟨h1, h2⟩
      refine ⟨h1, ?_⟩
      have hne : j0.noteId ≠ job.noteId := by
        intro heq
        have heq' : j0 = job := key_inj_of_nodup hjn hj0 hjob_mem heq
        rw [heq'] at hcase
        exact hcase hjob_id
      have hfind : findNote r j0.noteId = findNote s j0.noteId := by
        rw [hr]
        rw [findNote_jobSetStatus, findNote_noteComplete_ne _ _ _ hne,
          findNote_noteSetStatus_ne _ _ _ hne, findNote_jobDispatch]
      rw [noteStatusOf, hfind]
      exact h2

theorem inv_branch_fail_exhaust {s : ManagerState} {jid : String} {job : Job}
    {pw : Bool} (hInv : Inv s) (h : findJob s jid = some job)
    (hex : ¬ job.maxAttempts ≤ job.attempts)
    (h2 : job.maxAttempts ≤ job.attempts + 1) :
    Inv (noteSetStatus
          (jobSetStatus
            (if pw then
              noteSetStatus (jobDispatch s jid) job.noteId NoteStatus.PROCESSING
            else jobDispatch s jid)
            jid JobStatus.failed)
          job.noteId NoteStatus.FAILED) := by
  obtain ⟨hids, hnids, hjn, hpres, hbd, hq, hf⟩ := hInv
  set r := noteSetStatus
    (jobSetStatus
      (if pw then
        noteSetStatus (jobDispatch s jid) job.noteId NoteStatus.PROCESSING
      else jobDispatch s jid)
      jid JobStatus.failed)
    job.noteId NoteStatus.FAILED with hr
  have hjobs : r.jobs
      = updKey Job.id s.jobs jid
          (fun j => { j with status := JobStatus.failed, attempts := j.attempts + 1 }) := by
    cases pw
    · exact updJobs_dispatch_then_status s.jobs jid JobStatus.failed
    · exact updJobs_dispatch_then_status s.jobs jid JobStatus.failed
  have hnotes : r.notes
      = updKey NoteRec.id s.notes job.noteId
          (fun n => { n with status := NoteStatus.FAILED }) := by
    cases pw
    · rfl
    · exact updNotes_processing_then_failed s.notes job.noteId
  have hjids : r.jobs.map Job.id = s.jobs.map Job.id := by
    rw [hjobs]
    exact updKey_map_of_preserves (fun _ => rfl)
  have hjnotes : r.jobs.map Job.noteId = s.jobs.map Job.noteId := by
    rw [hjobs]
    exact updKey_map_of_preserves (fun _ => rfl)
  have hnid : r.notes.map NoteRec.id = s.notes.map NoteRec.id := by
    rw [hnotes]
    exact updKey_map_of_preserves (fun _ => rfl)
  have hjob_mem := findJob_mem_of_some h
  have hjob_id := findJob_id_of_some h
  refine ⟨?_, ?_, ?_, ?_, ?_, ?_, ?_⟩
  · rw [UniqueJobIds, hjids]
    exact hids
  · rw [UniqueNoteIds, hnid]
    exact hnids
  · rw [UniqueJobNotes, hjnotes]
    exact hjn
  · intro k hk
    rw [hnid]
    rw [hjobs] at hk
    rcases mem_updKey.mp hk with ⟨j0, hj0, rfl⟩
    by_cases hcase : j0.id = jid
    · rw [if_pos hcase]
      exact hpres j0 hj0
    · rw [if_neg hcase]
      exact hpres j0 hj0
  · intro k hk
    rw [hjobs] at hk
    rcases mem_updKey.mp hk with ⟨j0, hj0, rfl⟩
    by_cases hcase : j0.id = jid
    · obtain rfl : j0 = job := findJob_mem_unique hids h hj0 hcase
      rw [if_pos hcase]
      show j0.attempts + 1 ≤ j0.maxAttempts
      omega
    · rw [if_neg hcase]
      exact hbd j0 hj0
  · intro k hk hqk
    rw [hjobs] at hk
    rcases mem_updKey.mp hk with ⟨j0, hj0, rfl⟩
    by_cases hcase : j0.id = jid
    · rw [if_pos hcase] at hqk
      simp at hqk
    · rw [if_neg hcase] at hqk ⊢
      exact hq j0 hj0 hqk
  · intro k hk hfk
    rw [hjobs] at hk
    rcases mem_updKey.mp hk with ⟨j0, hj0, rfl⟩
    by_cases hcase : j0.id = jid
    · obtain rfl : j0 = job := findJob_mem_unique hids h hj0 hcase
      rw [if_pos hcase]
      constructor
      · show j0.attempts + 1 = j0.maxAttempts
        omega
      · show noteStatusOf r j0.noteId = some NoteStatus.FAILED
        rcases findNote_of_present (hpres j0 hj0) with ⟨n, hn, hnid'⟩
        have hthis : findNote r j0.noteId
            = (findNote s j0.noteId).map
                (fun nn => { nn with status := NoteStatus.FAILED }) := by
          show r.notes.find? _ = (s.notes.find? _).map _
          rw [hnotes]
          exact updKey_find?_self (fun _ => rfl)
        rw [noteStatusOf, hthis, hn]
        rfl
    · rw [if_neg hcase] at hfk ⊢
      rcases hf j0 hj0 hfk with ⟨h1, h2⟩
      refine ⟨h1, ?_⟩
      have hne : j0.noteId ≠ job.noteId := by
        intro heq
        have heq' : j0 = job := key_inj_of_nodup hjn hj0 hjob_mem heq
        rw [heq'] at hcase
        exact hcase hjob_id
      have hfind : findNote r j0.noteId = findNote s j0.noteId := by
        show r.notes.find? _ = _
        rw [hnotes]
        exact updKey_find?_ne (fun _ => rfl) hne
      rw [noteStatusOf, hfind]
      exact h2


theorem inv_branch_requeue {s : ManagerState} {jid : String} {job : Job}
    {pw : Bool} (hInv : Inv s) (h : findJob s jid = some job)
    (hex : ¬ job.maxAttempts ≤ job.attempts)
    (h2 : ¬ job.maxAttempts ≤ job.attempts + 1) :
    Inv (jobSetStatus
          (if pw then
            noteSetStatus (jobDispatch s jid) job.noteId NoteStatus.PROCESSING
          else jobDispatch s jid)
          jid JobStatus.queued) := by
  obtain ⟨hids, hnids, hjn, hpres, hbd, hq, hf⟩ := hInv
  set r := jobSetStatus
    (if pw then
      noteSetStatus (jobDispatch s jid) job.noteId NoteStatus.PROCESSING
    else jobDispatch s jid)
    jid JobStatus.queued with hr
  have hjobs : r.jobs
      = updKey Job.id s.jobs jid
          (fun j => { j with status := JobStatus.queued, attempts := j.attempts + 1 }) := by
    cases pw
    · exact updJobs_dispatch_then_status s.jobs jid JobStatus.queued
    · exact updJobs_dispatch_then_status s.jobs jid JobStatus.queued
  have hjids : r.jobs.map Job.id = s.jobs.map Job.id := by
    rw [hjobs]
    exact updKey_map_of_preserves (fun _ => rfl)
  have hjnotes : r.jobs.map Job.noteId = s.jobs.map Job.noteId := by
    rw [hjobs]
    exact updKey_map_of_preserves (fun _ => rfl)
  have hnid : r.notes.map NoteRec.id = s.notes.map NoteRec.id := by
    cases pw
    · rfl
    · exact updKey_map_of_preserves (fun _ => rfl)
  have hjob_mem := findJob_mem_of_some h
  have hjob_id := findJob_id_of_some h
  refine ⟨?_, ?_, ?_, ?_, ?_, ?_, ?_⟩
  · rw [UniqueJobIds, hjids]
    exact hids
  · rw [UniqueNoteIds, hnid]
    exact hnids
  · rw [UniqueJobNotes, hjnotes]
    exact hjn
  · intro k hk
    rw [hnid]
    rw [hjobs] at hk
    rcases mem_updKey.mp hk with ⟨j0, hj0, rfl⟩
    by_cases hcase : j0.id = jid
    · rw [if_pos hcase]
      exact hpres j0 hj0
    · rw [if_neg hcase]
      exact hpres j0 hj0
  · intro k hk
    rw [hjobs] at hk
    rcases mem_updKey.mp hk with ⟨j0, hj0, rfl⟩
    by_cases hcase : j0.id = jid
    · obtain rfl : j0 = job := findJob_mem_unique hids h hj0 hcase
      rw [if_pos hcase]
      show j0.attempts + 1 ≤ j0.maxAttempts
      omega
    · rw [if_neg hcase]
      exact hbd j0 hj0
  · intro k hk hqk
    rw [hjobs] at hk
    rcases mem_updKey.mp hk with ⟨j0, hj0, rfl⟩
    by_cases hcase : j0.id = jid
    · obtain rfl : j0 = job := findJob_mem_unique hids h hj0 hcase
      rw [if_pos hcase]
      show j0.attempts + 1 < j0.maxAttempts
      omega
    · rw [if_neg hcase] at hqk ⊢
      exact hq j0 hj0 hqk
  · intro k hk hfk
    rw [hjobs] at hk
    rcases mem_updKey.mp hk with ⟨j0, hj0, rfl⟩
    by_cases hcase : j0.id = jid
    · rw [if_pos hcase] at hfk
      simp at hfk
    · rw [if_neg hcase] at hfk ⊢
      rcases hf j0 hj0 hfk with ⟨h1, h2⟩
      refine ⟨h1, ?_⟩
      have hne : j0.noteId ≠ job.noteId := by
        intro heq
        have heq' : j0 = job := key_inj_of_nodup hjn hj0 hjob_mem heq
        rw [heq'] at hcase
        exact hcase hjob_id
      have hfind : findNote r j0.noteId = findNote s j0.noteId := by
        cases pw
        · rfl
        · show findNote
              (noteSetStatus (jobDispatch s jid) job.noteId NoteStatus.PROCESSING)
              j0.noteId = findNote s j0.noteId
          rw [findNote_noteSetStatus_ne _ _ _ hne]
          rfl
      rw [noteStatusOf, hfind]
      exact h2


theorem inv_branch_other {s : ManagerState} {jid : String} {job : Job}
    (hInv : Inv s) (h : findJob s jid = some job)
    (hex : ¬ job.maxAttempts ≤ job.attempts) :
    Inv (jobDispatch s jid) := by
  obtain ⟨hids, hnids, hjn, hpres, hbd, hq, hf⟩ := hInv
  set r := jobDispatch s jid with hr
  have hjobs : r.jobs
      = updKey Job.id s.jobs jid
          (fun j => { j with status := JobStatus.processing, attempts := j.attempts + 1 }) := rfl
  have hjids : r.jobs.map Job.id = s.jobs.map Job.id := by
    rw [hjobs]
    exact updKey_map_of_preserves (fun _ => rfl)
  have hjnotes : r.jobs.map Job.noteId = s.jobs.map Job.noteId := by
    rw [hjobs]
    exact updKey_map_of_preserves (fun _ => rfl)
  have hjob_mem := findJob_mem_of_some h
  refine ⟨?_, ?_, ?_, ?_, ?_, ?_, ?_⟩
  · rw [UniqueJobIds, hjids]
    exact hids
  · exact hnids
  · rw [UniqueJobNotes, hjnotes]
    exact hjn
  · intro k hk
    rw [hjobs] at hk
    rcases mem_updKey.mp hk with ⟨j0, hj0, rfl⟩
    by_cases hcase : j0.id = jid
    · rw [if_pos hcase]
      exact hpres j0 hj0
    · rw [if_neg hcase]
      exact hpres j0 hj0
  · intro k hk
    rw [hjobs] at hk
    rcases mem_updKey.mp hk with ⟨j0, hj0, rfl⟩
    by_cases hcase : j0.id = jid
    · obtain rfl : j0 = job := findJob_mem_unique hids h hj0 hcase
      rw [if_pos hcase]
      show j0.attempts + 1 ≤ j0.maxAttempts
      omega
    · rw [if_neg hcase]
      exact hbd j0 hj0
  · intro k hk hqk
    rw [hjobs] at hk
    rcases mem_updKey.mp hk with ⟨j0, hj0, rfl⟩
    by_cases hcase : j0.id = jid
    · rw [if_pos hcase] at hqk
      simp at hqk
    · rw [if_neg hcase] at hqk ⊢
      exact hq j0 hj0 hqk
  · intro k hk hfk
    rw [hjobs] at hk
    rcases mem_updKey.mp hk with ⟨j0, hj0, rfl⟩
    by_cases hcase : j0.id = jid
    · rw [if_pos hcase] at hfk
      simp at hfk
    · rw [if_neg hcase] at hfk ⊢
      exact hf j0 hj0 hfk

theorem processJob_preserves_inv (env : HandlerEnv) (s : ManagerState)
    (jid : String) (hInv : Inv s) : Inv (processJob env s jid) := by
  cases hfind : findJob s jid with
  | none =>
      rw [processJob_not_found hfind]
      exact hInv
  | some job =>
      by_cases hex : job.maxAttempts ≤ job.attempts
      · rw [processJob_exhausted hfind hex]
        exact inv_branch_exhausted hInv hfind hex
      · by_cases ht : job.jobType = "summarize_note"
        · cases he : env jid with
          | success m =>
              rw [processJob_success hfind hex ht he]
              exact inv_branch_success m hInv hfind hex
          | failure pw =>
              by_cases h2 : job.maxAttempts ≤ job.attempts + 1
              · rw [processJob_fail_exhaust hfind hex ht he h2]
                exact inv_branch_fail_exhaust hInv hfind hex h2
              · rw [processJob_fail_requeue hfind hex ht he h2]
                exact inv_branch_requeue hInv hfind hex h2
        · rw [processJob_other_type hfind hex ht]
          exact inv_branch_other hInv hfind hex

theorem foldl_processJob_inv (env : HandlerEnv) (ids : List String)
    {s : ManagerState} (h : Inv s) :
    Inv (ids.foldl (processJob env) s) := by
  induction ids generalizing s with
  | nil => exact h
  | cons i t ih => exact ih (processJob_preserves_inv env s i h)

theorem scanStep_inv (env : HandlerEnv) {s : ManagerState} (h : Inv s) :
    Inv (scanStep env s) :=
  foldl_processJob_inv env (queuedIds s) h

theorem scanStepTrunc_inv (env : HandlerEnv) (k : Nat) {s : ManagerState}
    (h : Inv s) : Inv (scanStepTrunc env k s) :=
  foldl_processJob_inv env ((queuedIds s).take k) h


theorem inv_initialState : Inv initialState := by
  refine ⟨?_, ?_, ?_, ?_, ?_, ?_, ?_⟩ <;>
    simp [initialState, UniqueJobIds, UniqueNoteIds, UniqueJobNotes,
      NotesPresent, AttemptsBounded, QueuedBelowMax, FailedSync]

theorem inv_start {s : ManagerState} (h : Inv s) : Inv (start s) := h

theorem inv_stop {s : ManagerState} (h : Inv s) : Inv (stop s) := h

theorem inv_submit {s : ManagerState} (hInv : Inv s) (jid : String)
    (nid : Nat) (raw : String) (now : Nat)
    (hjid : ∀ j ∈ s.jobs, j.id ≠ jid)
    (hjn2 : ∀ j ∈ s.jobs, j.noteId ≠ nid)
    (hnid2 : ∀ n ∈ s.notes, n.id ≠ nid) :
    Inv (add_job (createNote s nid) jid "summarize_note" nid raw now) := by
  obtain ⟨hids, hnids, hjn, hpres, hbd, hq, hf⟩ := hInv
  have hany : s.jobs.any (fun j => decide (j.id = jid)) = false := by
    rw [List.any_eq_false]
    intro j hj
    simpa using hjid j hj
  have hre : add_job (createNote s nid) jid "summarize_note" nid raw now
      = { jobs := s.jobs ++ [freshJob jid "summarize_note" nid raw now],
          notes := s.notes ++ [{ id := nid, status := NoteStatus.QUEUED, summary := none }],
          running := s.running, loopTasksLaunched := s.loopTasksLaunched } := by
    unfold add_job
    have hc : (createNote s nid).jobs.any (fun j => decide (j.id = jid)) = false := hany
    rw [hc]
    rfl
  rw [hre]
  refine ⟨?_, ?_, ?_, ?_, ?_, ?_, ?_⟩
  · show ((s.jobs ++ [freshJob jid "summarize_note" nid raw now]).map Job.id).Nodup
    rw [List.map_append]
    rw [List.nodup_append]
    refine ⟨hids, List.nodup_singleton _, ?_⟩
    intro x hx
    rcases List.mem_map.mp hx with ⟨j, hj, rfl⟩
    simp only [List.map_cons, List.map_nil, List.mem_singleton]
    intro hxx
    exact hjid j hj hxx
  · show ((s.notes ++ [({ id := nid, status := NoteStatus.QUEUED, summary := none } : NoteRec)]).map NoteRec.id).Nodup
    rw [List.map_append]
    rw [List.nodup_append]
    refine ⟨hnids, List.nodup_singleton _, ?_⟩
    intro x hx
    rcases List.mem_map.mp hx with ⟨n, hn, rfl⟩
    simp only [List.map_cons, List.map_nil, List.mem_singleton]
    intro hxx
    exact hnid2 n hn hxx
  · show ((s.jobs ++ [freshJob jid "summarize_note" nid raw now]).map Job.noteId).Nodup
    rw [List.map_append]
    rw [List.nodup_append]
    refine ⟨hjn, List.nodup_singleton _, ?_⟩
    intro x hx
    rcases List.mem_map.mp hx with ⟨j, hj, rfl⟩
    simp only [List.map_cons, List.map_nil, List.mem_singleton]
    intro hxx
    exact hjn2 j hj hxx
  · intro j hj
    rw [List.map_append, List.mem_append]
    rcases List.mem_append.mp hj with hj0 | hj1
    · exact Or.inl (hpres j hj0)
    · right
      rcases List.mem_singleton.mp hj1 with rfl
      simp [freshJob]
  · intro j hj
    rcases List.mem_append.mp hj with hj0 | hj1
    · exact hbd j hj0
    · rcases List.mem_singleton.mp hj1 with rfl
      simp [freshJob]
  · intro j hj hqj
    rcases List.mem_append.mp hj with hj0 | hj1
    · exact hq j hj0 hqj
    · rcases List.mem_singleton.mp hj1 with rfl
      simp [freshJob]
  · intro j hj hfj
    rcases List.mem_append.mp hj with hj0 | hj1
    · rcases hf j hj0 hfj with ⟨h1, h2⟩
      refine ⟨h1, ?_⟩
      rcases Option.map_eq_some'.mp h2 with ⟨n, hn, hns⟩
      show ((s.notes ++ [({ id := nid, status := NoteStatus.QUEUED, summary := none } : NoteRec)]).find?
          (fun n => decide (n.id = j.noteId))).map NoteRec.status = some NoteStatus.FAILED
      rw [List.find?_append]
      have hn' : s.notes.find? (fun n => decide (n.id = j.noteId)) = some n := hn
      rw [hn']
      simp [hns]
    · rcases List.mem_singleton.mp hj1 with rfl
      simp [freshJob] at hfj

theorem reachable_inv {s : ManagerState} (h : Reachable s) : Inv s := by
  induction h with
  | init => exact inv_initialState
  | submit jid nid raw now _ hjid hjn2 hnid2 ih =>
      exact inv_submit ih jid nid raw now hjid hjn2 hnid2
  | scan env _ ih => exact scanStep_inv env ih
  | scanCrash env k _ ih => exact scanStepTrunc_inv env k ih
  | doStart _ ih => exact inv_start ih
  | doStop _ ih => exact inv_stop ih


theorem updKey_id {α κ : Type} [DecidableEq κ] (key : α → κ) (l : List α)
    (k : κ) : updKey key l k (fun a => a) = l := by
  unfold updKey
  simp

/-- Whatever branch `processJob` takes, the job list of the result is an
in-place rewrite of the entry keyed `jid` that keeps `id`, `noteId`,
`maxAttempts` and never decreases `attempts`. -/
theorem processJob_jobs_shape (env : HandlerEnv) (s : ManagerState)
    (jid : String) :
    ∃ F : Job → Job, (processJob env s jid).jobs = updKey Job.id s.jobs jid F
      ∧ (∀ j, (F j).id = j.id) ∧ (∀ j, (F j).noteId = j.noteId)
      ∧ (∀ j, (F j).maxAttempts = j.maxAttempts)
      ∧ (∀ j, j.attempts ≤ (F j).attempts) := by
  cases hfind : findJob s jid with
  | none =>
      refine ⟨fun a => a, ?_, fun _ => rfl, fun _ => rfl, fun _ => rfl,
        fun _ => Nat.le_refl _⟩
      rw [processJob_not_found hfind, updKey_id]
  | some job =>
      by_cases hex : job.maxAttempts ≤ job.attempts
      · refine ⟨fun j => { j with status := JobStatus.failed }, ?_,
          fun _ => rfl, fun _ => rfl, fun _ => rfl, fun _ => Nat.le_refl _⟩
        rw [processJob_exhausted hfind hex]
        rfl
      · by_cases ht : job.jobType = "summarize_note"
        · cases he : env jid with
          | success m =>
              refine ⟨fun j => { j with status := JobStatus.completed, attempts := j.attempts + 1 }, ?_,
                fun _ => rfl, fun _ => rfl, fun _ => rfl,
                fun _ => Nat.le_succ _⟩
              rw [processJob_success hfind hex ht he]
              exact updJobs_dispatch_then_status s.jobs jid JobStatus.completed
          | failure pw =>
              by_cases h2 : job.maxAttempts ≤ job.attempts + 1
              · refine ⟨fun j => { j with status := JobStatus.failed, attempts := j.attempts + 1 }, ?_,
                  fun _ => rfl, fun _ => rfl, fun _ => rfl,
                  fun _ => Nat.le_succ _⟩
                rw [processJob_fail_exhaust hfind hex ht he h2]
                cases pw
                · exact updJobs_dispatch_then_status s.jobs jid JobStatus.failed
                · exact updJobs_dispatch_then_status s.jobs jid JobStatus.failed
              · refine ⟨fun j => { j with status := JobStatus.queued, attempts := j.attempts + 1 }, ?_,
                  fun _ => rfl, fun _ => rfl, fun _ => rfl,
                  fun _ => Nat.le_succ _⟩
                rw [processJob_fail_requeue hfind hex ht he h2]
                cases pw
                · exact updJobs_dispatch_then_status s.jobs jid JobStatus.queued
                · exact updJobs_dispatch_then_status s.jobs jid JobStatus.queued
        · refine ⟨fun j => { j with status := JobStatus.processing, attempts := j.attempts + 1 }, ?_,
            fun _ => rfl, fun _ => rfl, fun _ => rfl,
            fun _ => Nat.le_succ _⟩
          rw [processJob_other_type hfind hex ht]
          rfl

theorem processJob_jobs_ids (env : HandlerEnv) (s : ManagerState)
    (i : String) :
    (processJob env s i).jobs.map Job.id = s.jobs.map Job.id := by
  rcases processJob_jobs_shape env s i with ⟨F, hF, hid, _, _, _⟩
  rw [hF]
  exact updKey_map_of_preserves hid

theorem findJob_processJob_ne (env : HandlerEnv) (s : ManagerState)
    (i : String) {jid : String} (h : jid ≠ i) :
    findJob (processJob env s i) jid = findJob s jid := by
  rcases processJob_jobs_shape env s i with ⟨F, hF, hid, _, _, _⟩
  show (processJob env s i).jobs.find? _ = _
  rw [hF]
  exact updKey_find?_ne hid h

theorem findJob_processJob_noteId (env : HandlerEnv) (s : ManagerState)
    (i jid : String) :
    (findJob (processJob env s i) jid).map Job.noteId
      = (findJob s jid).map Job.noteId := by
  rcases processJob_jobs_shape env s i with ⟨F, hF, hid, hnote, _, _⟩
  by_cases h : jid = i
  · subst h
    have : findJob (processJob env s jid) jid = (findJob s jid).map F := by
      show (processJob env s jid).jobs.find? _ = _
      rw [hF]
      exact updKey_find?_self hid
    rw [this]
    cases findJob s jid with
    | none => rfl
    | some j =>
        show some ((F j).noteId) = some j.noteId
        rw [hnote]
  · rw [findJob_processJob_ne env s i h]

theorem findNote_processJob_ne (env : HandlerEnv) (s : ManagerState)
    (i : String) {nid : Nat}
    (h : ∀ j, findJob s i = some j → j.noteId ≠ nid) :
    findNote (processJob env s i) nid = findNote s nid := by
  cases hfind : findJob s i with
  | none => rw [processJob_not_found hfind]
  | some job =>
      have hne : nid ≠ job.noteId := fun he => h job hfind he.symm
      by_cases hex : job.maxAttempts ≤ job.attempts
      · rw [processJob_exhausted hfind hex]
        rw [findNote_noteSetStatus_ne _ _ _ hne, findNote_jobSetStatus]
      · by_cases ht : job.jobType = "summarize_note"
        · cases he : env i with
          | success m =>
              rw [processJob_success hfind hex ht he]
              rw [findNote_jobSetStatus, findNote_noteComplete_ne _ _ _ hne,
                findNote_noteSetStatus_ne _ _ _ hne, findNote_jobDispatch]
          | failure pw =>
              by_cases h2 : job.maxAttempts ≤ job.attempts + 1
              · rw [processJob_fail_exhaust hfind hex ht he h2]
                rw [findNote_noteSetStatus_ne _ _ _ hne, findNote_jobSetStatus]
                cases pw
                · rfl
                · show findNote
                      (noteSetStatus (jobDispatch s i) job.noteId NoteStatus.PROCESSING)
                      nid = findNote s nid
                  rw [findNote_noteSetStatus_ne _ _ _ hne, findNote_jobDispatch]
              · rw [processJob_fail_requeue hfind hex ht he h2]
                rw [findNote_jobSetStatus]
                cases pw
                · rfl
                · show findNote
                      (noteSetStatus (jobDispatch s i) job.noteId NoteStatus.PROCESSING)
                      nid = findNote s nid
                  rw [findNote_noteSetStatus_ne _ _ _ hne, findNote_jobDispatch]
        · rw [processJob_other_type hfind hex ht]
          rfl

theorem processJob_preserves_noteOwned {env : HandlerEnv} {s : ManagerState}
    {i jid : String} {nid : Nat}
    (h : ∀ j ∈ s.jobs, j.id = jid ∨ j.noteId ≠ nid) :
    ∀ j ∈ (processJob env s i).jobs, j.id = jid ∨ j.noteId ≠ nid := by
  rcases processJob_jobs_shape env s i with ⟨F, hF, hid, hnote, _, _⟩
  intro k hk
  rw [hF] at hk
  rcases mem_updKey.mp hk with ⟨j0, hj0, rfl⟩
  by_cases hc : j0.id = i
  · rw [if_pos hc, hid, hnote]
    exact h j0 hj0
  · rw [if_neg hc]
    exact h j0 hj0


theorem foldl_processJob_jobs_ids (env : HandlerEnv) (ids : List String)
    (s : ManagerState) :
    (ids.foldl (processJob env) s).jobs.map Job.id = s.jobs.map Job.id := by
  induction ids generalizing s with
  | nil => rfl
  | cons i t ih => exact (ih (processJob env s i)).trans (processJob_jobs_ids env s i)

theorem foldl_preserves_noteOwned {env : HandlerEnv} {ids : List String}
    {s : ManagerState} {jid : String} {nid : Nat}
    (h : ∀ j ∈ s.jobs, j.id = jid ∨ j.noteId ≠ nid) :
    ∀ j ∈ (ids.foldl (processJob env) s).jobs, j.id = jid ∨ j.noteId ≠ nid := by
  induction ids generalizing s with
  | nil => exact h
  | cons i t ih => exact ih (processJob_preserves_noteOwned h)

theorem foldl_processJob_untouched {env : HandlerEnv} {ids : List String}
    {s : ManagerState} {jid : String} {nid : Nat}
    (hno : jid ∉ ids)
    (hown : ∀ j ∈ s.jobs, j.id = jid ∨ j.noteId ≠ nid) :
    findJob (ids.foldl (processJob env) s) jid = findJob s jid
      ∧ findNote (ids.foldl (processJob env) s) nid = findNote s nid := by
  induction ids generalizing s with
  | nil => exact ⟨rfl, rfl⟩
  | cons i t ih =>
      have hij : jid ≠ i := fun he => hno (he ▸ List.mem_cons_self i t)
      have hstep1 : findJob (processJob env s i) jid = findJob s jid :=
        findJob_processJob_ne env s i hij
      have hstep2 : findNote (processJob env s i) nid = findNote s nid := by
        apply findNote_processJob_ne
        intro j hfind
        have hjmem : j ∈ s.jobs := findJob_mem_of_some hfind
        have hjid : j.id = i := findJob_id_of_some hfind
        rcases hown j hjmem with h1 | h2
        · exact absurd (hjid.symm.trans h1) (Ne.symm hij)
        · exact h2
      have hno1 : jid ∉ t := fun he => hno (List.mem_cons_of_mem i he)
      rcases ih hno1 (processJob_preserves_noteOwned hown) with ⟨ha, hb⟩
      exact ⟨ha.trans hstep1, hb.trans hstep2⟩

theorem processJob_attempts_mono (env : HandlerEnv) (s : ManagerState)
    (i : String) {j : Job} (hj : j ∈ s.jobs) :
    ∃ k ∈ (processJob env s i).jobs,
      k.id = j.id ∧ k.maxAttempts = j.maxAttempts ∧ j.attempts ≤ k.attempts := by
  rcases processJob_jobs_shape env s i with ⟨F, hF, hid, _, hmax, hatt⟩
  by_cases hc : j.id = i
  · refine ⟨F j, ?_, hid j, hmax j, hatt j⟩
    rw [hF]
    exact mem_updKey.mpr ⟨j, hj, (if_pos hc).symm⟩
  · refine ⟨j, ?_, rfl, rfl, Nat.le_refl _⟩
    rw [hF]
    exact mem_updKey.mpr ⟨j, hj, (if_neg hc).symm⟩

theorem foldl_processJob_attempts_mono (env : HandlerEnv) (ids : List String)
    {s : ManagerState} {j : Job} (hj : j ∈ s.jobs) :
    ∃ k ∈ (ids.foldl (processJob env) s).jobs,
      k.id = j.id ∧ k.maxAttempts = j.maxAttempts ∧ j.attempts ≤ k.attempts := by
  induction ids generalizing s j with
  | nil => exact ⟨j, hj, rfl, rfl, Nat.le_refl _⟩
  | cons i t ih =>
      rcases processJob_attempts_mono env s i hj with ⟨k, hk, hkid, hkmax, hkatt⟩
      rcases ih hk with ⟨k2, hk2, h2id, h2max, h2att⟩
      exact ⟨k2, hk2, h2id.trans hkid, h2max.trans hkmax, Nat.le_trans hkatt h2att⟩

theorem multiScan_attempts_mono (envs : List HandlerEnv)
    {s : ManagerState} {j : Job} (hj : j ∈ s.jobs) :
    ∃ k ∈ (multiScan envs s).jobs,
      k.id = j.id ∧ k.maxAttempts = j.maxAttempts ∧ j.attempts ≤ k.attempts := by
  induction envs generalizing s j with
  | nil => exact ⟨j, hj, rfl, rfl, Nat.le_refl _⟩
  | cons e es ih =>
      rcases foldl_processJob_attempts_mono e (queuedIds s) hj with
        ⟨k, hk, hkid, hkmax, hkatt⟩
      rcases ih hk with ⟨k2, hk2, h2id, h2max, h2att⟩
      exact ⟨k2, hk2, h2id.trans hkid, h2max.trans hkmax, Nat.le_trans hkatt h2att⟩

theorem reachable_multiScan (envs : List HandlerEnv) {s : ManagerState}
    (h : Reachable s) : Reachable (multiScan envs s) := by
  induction envs generalizing s with
  | nil => exact h
  | cons e es ih => exact ih (Reachable.scan e h)

theorem scanStep_jobs_ids (env : HandlerEnv) (s : ManagerState) :
    (scanStep env s).jobs.map Job.id = s.jobs.map Job.id :=
  foldl_processJob_jobs_ids env (queuedIds s) s

theorem queuedIds_nodup {s : ManagerState} (hids : UniqueJobIds s) :
    (queuedIds s).Nodup := by
  have hsub : List.Sublist (queuedIds s) (s.jobs.map Job.id) :=
    (List.filter_sublist s.jobs).map Job.id
  exact hsub.nodup hids

theorem mem_queuedIds {s : ManagerState} {jid : String} :
    jid ∈ queuedIds s
      ↔ ∃ j ∈ s.jobs, j.id = jid ∧ j.status = JobStatus.queued := by
  unfold queuedIds
  constructor
  · intro h
    rcases List.mem_map.mp h with ⟨j, hj, rfl⟩
    rcases List.mem_filter.mp hj with ⟨hmem, hq⟩
    exact ⟨j, hmem, rfl, by simpa using hq⟩
  · rintro ⟨j, hmem, rfl, hq⟩
    exact List.mem_map.mpr ⟨j, List.mem_filter.mpr ⟨hmem, by simpa using hq⟩, rfl⟩

theorem scanStep_nonqueued {env : HandlerEnv} {s : ManagerState}
    {jid : String} {job : Job}
    (hids : UniqueJobIds s)
    (hfind : findJob s jid = some job)
    (hnq : job.status ≠ JobStatus.queued)
    (hown : ∀ j ∈ s.jobs, j.id = jid ∨ j.noteId ≠ job.noteId) :
    findJob (scanStep env s) jid = some job
      ∧ findNote (scanStep env s) job.noteId = findNote s job.noteId := by
  have hnomem : jid ∉ queuedIds s := by
    intro hmem
    rcases mem_queuedIds.mp hmem with ⟨jq, hjqmem, hjqid, hjqq⟩
    have heq : jq = job := findJob_mem_unique hids hfind hjqmem hjqid
    exact hnq (heq ▸ hjqq)
  rcases foldl_processJob_untouched hnomem hown with ⟨ha, hb⟩
  exact ⟨ha.trans hfind, hb⟩

theorem multiScan_nonqueued (envs : List HandlerEnv) {s : ManagerState}
    {jid : String} {job : Job}
    (hids : UniqueJobIds s)
    (hfind : findJob s jid = some job)
    (hnq : job.status ≠ JobStatus.queued)
    (hown : ∀ j ∈ s.jobs, j.id = jid ∨ j.noteId ≠ job.noteId) :
    findJob (multiScan envs s) jid = some job
      ∧ findNote (multiScan envs s) job.noteId = findNote s job.noteId := by
  induction envs generalizing s with
  | nil => exact ⟨hfind, rfl⟩
  | cons e es ih =>
      rcases scanStep_nonqueued hids hfind hnq hown with ⟨ha, hb⟩
      have hids1 : UniqueJobIds (scanStep e s) := by
        rw [UniqueJobIds, scanStep_jobs_ids]
        exact hids
      have hown1 : ∀ j ∈ (scanStep e s).jobs, j.id = jid ∨ j.noteId ≠ job.noteId :=
        foldl_preserves_noteOwned hown
      rcases ih hids1 ha hown1 with ⟨hc, hd⟩
      exact ⟨hc, hd.trans hb⟩


theorem scanStep_dispatches_other (env : HandlerEnv) {s : ManagerState}
    {jid : String} {job : Job}
    (hids : UniqueJobIds s)
    (hfind : findJob s jid = some job)
    (hq : job.status = JobStatus.queued)
    (hlt : job.attempts < job.maxAttempts)
    (ht : job.jobType ≠ "summarize_note")
    (hown : ∀ j ∈ s.jobs, j.id = jid ∨ j.noteId ≠ job.noteId) :
    findJob (scanStep env s) jid
        = some { job with status := JobStatus.processing, attempts := job.attempts + 1 }
      ∧ findNote (scanStep env s) job.noteId = findNote s job.noteId := by
  have hjmem : job ∈ s.jobs := findJob_mem_of_some hfind
  have hjid : job.id = jid := findJob_id_of_some hfind
  have hmem : jid ∈ queuedIds s := mem_queuedIds.mpr ⟨job, hjmem, hjid, hq⟩
  have hnd : (queuedIds s).Nodup := queuedIds_nodup hids
  obtain ⟨l1, l2, hsplit⟩ := List.append_of_mem hmem
  rw [hsplit] at hnd
  rcases List.nodup_append.mp hnd with ⟨hnd1, hnd2, hdisj⟩
  have hno1 : jid ∉ l1 := fun hin => hdisj hin (List.mem_cons_self jid l2)
  have hno2 : jid ∉ l2 := (List.nodup_cons.mp hnd2).1
  show findJob ((queuedIds s).foldl (processJob env) s) jid = _
    ∧ findNote ((queuedIds s).foldl (processJob env) s) job.noteId = _
  rw [hsplit, List.foldl_append, List.foldl_cons]
  rcases foldl_processJob_untouched hno1 hown with ⟨ha1, hb1⟩
  have hfind1 : findJob (l1.foldl (processJob env) s) jid = some job :=
    ha1.trans hfind
  have hex : ¬ job.maxAttempts ≤ job.attempts := by omega
  have hstep : processJob env (l1.foldl (processJob env) s) jid
      = jobDispatch (l1.foldl (processJob env) s) jid :=
    processJob_other_type hfind1 hex ht
  rw [hstep]
  have hfind2 : findJob (jobDispatch (l1.foldl (processJob env) s) jid) jid
      = some { job with status := JobStatus.processing, attempts := job.attempts + 1 } := by
    rw [findJob_jobDispatch_self, hfind1]
    rfl
  have hown1 : ∀ j ∈ (l1.foldl (processJob env) s).jobs,
      j.id = jid ∨ j.noteId ≠ job.noteId := foldl_preserves_noteOwned hown
  have hown2 : ∀ j ∈ (jobDispatch (l1.foldl (processJob env) s) jid).jobs,
      j.id = jid ∨ j.noteId ≠ job.noteId := by
    have h0 := @processJob_preserves_noteOwned env (l1.foldl (processJob env) s) jid jid job.noteId hown1
    rw [hstep] at h0
    exact h0
  rcases foldl_processJob_untouched hno2 hown2 with ⟨ha3, hb3⟩
  refine ⟨ha3.trans hfind2, ?_⟩
  have hb2 : findNote (jobDispatch (l1.foldl (processJob env) s) jid) job.noteId
      = findNote (l1.foldl (processJob env) s) job.noteId := rfl
  exact ((hb3.trans hb2).trans hb1)

theorem processJob_eq_dispatchOnly {env : HandlerEnv} {s : ManagerState}
    {i : String}
    (hq : ∀ j, findJob s i = some j →
      j.status = JobStatus.queued ∧ j.attempts < j.maxAttempts) :
    processJob env s i = processJobDispatchOnly env s i := by
  cases hfind : findJob s i with
  | none =>
      rw [processJob_not_found hfind]
      unfold processJobDispatchOnly
      rw [hfind]
  | some job =>
      have hlt : job.attempts < job.maxAttempts := (hq job hfind).2
      have hex : ¬ job.maxAttempts ≤ job.attempts := by omega
      unfold processJob processJobDispatchOnly
      rw [hfind]
      simp only [if_neg hex]

theorem foldl_eq_dispatchOnly {env : HandlerEnv} {ids : List String}
    {s : ManagerState}
    (hnd : ids.Nodup)
    (hInv : Inv s)
    (hq : ∀ i ∈ ids, ∀ j, findJob s i = some j → j.status = JobStatus.queued) :
    ids.foldl (processJob env) s = ids.foldl (processJobDispatchOnly env) s := by
  induction ids generalizing s with
  | nil => rfl
  | cons i t ih =>
      have hstep : processJob env s i = processJobDispatchOnly env s i := by
        apply processJob_eq_dispatchOnly
        intro j hfind
        have hqj : j.status = JobStatus.queued :=
          hq i (List.mem_cons_self i t) j hfind
        refine ⟨hqj, ?_⟩
        exact hInv.2.2.2.2.2.1 j (findJob_mem_of_some hfind) hqj
      rw [List.foldl_cons, List.foldl_cons, ← hstep]
      apply ih (List.nodup_cons.mp hnd).2
        (processJob_preserves_inv env s i hInv)
      intro i2 hi2 j hfind
      have hne : i2 ≠ i := fun he => (List.nodup_cons.mp hnd).1 (he ▸ hi2)
      rw [findJob_processJob_ne env s i hne] at hfind
      exact hq i2 (List.mem_cons_of_mem i hi2) j hfind

theorem scanStep_eq_dispatchOnly {s : ManagerState} (hInv : Inv s)
    (env : HandlerEnv) :
    scanStep env s = scanStepDispatchOnly env s := by
  unfold scanStep scanStepDispatchOnly
  apply foldl_eq_dispatchOnly (queuedIds_nodup hInv.1) hInv
  intro i hi j hfind
  rcases mem_queuedIds.mp hi with ⟨jq, hjqmem, hjqid, hjqq⟩
  have heq : jq = j := findJob_mem_unique hInv.1 hfind hjqmem hjqid
  exact heq ▸ hjqq


theorem processJob_running (env : HandlerEnv) (s : ManagerState) (i : String) :
    (processJob env s i).running = s.running := by
  cases hfind : findJob s i with
  | none => rw [processJob_not_found hfind]
  | some job =>
      by_cases hex : job.maxAttempts ≤ job.attempts
      · rw [processJob_exhausted hfind hex]
        rfl
      · by_cases ht : job.jobType = "summarize_note"
        · cases he : env i with
          | success m =>
              rw [processJob_success hfind hex ht he]
              rfl
          | failure pw =>
              by_cases h2 : job.maxAttempts ≤ job.attempts + 1
              · rw [processJob_fail_exhaust hfind hex ht he h2]
                cases pw <;> rfl
              · rw [processJob_fail_requeue hfind hex ht he h2]
                cases pw <;> rfl
        · rw [processJob_other_type hfind hex ht]
          rfl

theorem foldl_processJob_running (env : HandlerEnv) (ids : List String)
    (s : ManagerState) :
    (ids.foldl (processJob env) s).running = s.running := by
  induction ids generalizing s with
  | nil => rfl
  | cons i t ih => exact (ih (processJob env s i)).trans (processJob_running env s i)

theorem iterStep_running (e : IterEvent) (s : ManagerState) :
    (iterStep e s).running = s.running := by
  cases e with
  | normal env => exact foldl_processJob_running env (queuedIds s) s
  | crash env k => exact foldl_processJob_running env ((queuedIds s).take k) s

theorem updKey_find?_self2 {α κ : Type} [DecidableEq κ] {key : α → κ}
    {l : List α} {k : κ} {f : α → α}
    (hf : ∀ a, key a = k → key (f a) = k) :
    (updKey key l k f).find? (fun a => decide (key a = k))
      = (l.find? (fun a => decide (key a = k))).map f := by
  unfold updKey
  rw [List.find?_map]
  have hp : ((fun a => decide (key a = k)) ∘ fun a => if key a = k then f a else a)
      = fun a => decide (key a = k) := by
    funext a
    by_cases h : key a = k
    · simp [h, hf a h]
    · simp [h]
  rw [hp]
  cases hfind : l.find? (fun a => decide (key a = k)) with
  | none => rfl
  | some a =>
      have ha' : key a = k := by simpa using List.find?_some hfind
      simp [ha']

theorem updKey_find?_ne2 {α κ : Type} [DecidableEq κ] {key : α → κ}
    {l : List α} {k k' : κ} {f : α → α}
    (hf : ∀ a, key a = k → key (f a) = k) (hk : k' ≠ k) :
    (updKey key l k f).find? (fun a => decide (key a = k'))
      = l.find? (fun a => decide (key a = k')) := by
  unfold updKey
  rw [List.find?_map]
  have hp : ((fun a => decide (key a = k')) ∘ fun a => if key a = k then f a else a)
      = fun a => decide (key a = k') := by
    funext a
    by_cases h : key a = k
    · have h1 : key (f a) ≠ k' := by
        rw [hf a h]
        exact fun he => hk he.symm
      have h2 : key a ≠ k' := by
        rw [h]
        exact fun he => hk he.symm
      simp only [Function.comp_apply, if_pos h]
      simp [h1, h2]
    · simp [h]
  rw [hp]
  cases hfind : l.find? (fun a => decide (key a = k')) with
  | none => rfl
  | some a =>
      have ha' : key a = k' := by simpa using List.find?_some hfind
      have hne : key a ≠ k := by
        rw [ha']
        exact hk
      simp [hne]


theorem processJob_fail_exhaust_findJob {env : HandlerEnv} {s : ManagerState}
    {jid : String} {job : Job} {pw : Bool}
    (hfind : findJob s jid = some job)
    (hex : ¬ job.maxAttempts ≤ job.attempts)
    (ht : job.jobType = "summarize_note")
    (he : env jid = HandlerOutcome.failure pw)
    (h2 : job.maxAttempts ≤ job.attempts + 1) :
    findJob (processJob env s jid) jid
      = some { job with status := JobStatus.failed, attempts := job.attempts + 1 } := by
  rw [processJob_fail_exhaust hfind hex ht he h2]
  cases pw
  · show findJob
        (noteSetStatus (jobSetStatus (jobDispatch s jid) jid JobStatus.failed)
          job.noteId NoteStatus.FAILED) jid = _
    rw [findJob_noteSetStatus, findJob_jobSetStatus_self,
      findJob_jobDispatch_self, hfind]
    rfl
  · show findJob
        (noteSetStatus
          (jobSetStatus
            (noteSetStatus (jobDispatch s jid) job.noteId NoteStatus.PROCESSING)
            jid JobStatus.failed)
          job.noteId NoteStatus.FAILED) jid = _
    rw [findJob_noteSetStatus, findJob_jobSetStatus_self, findJob_noteSetStatus,
      findJob_jobDispatch_self, hfind]
    rfl

theorem processJob_fail_exhaust_findNote {env : HandlerEnv} {s : ManagerState}
    {jid : String} {job : Job} {pw : Bool}
    (hfind : findJob s jid = some job)
    (hex : ¬ job.maxAttempts ≤ job.attempts)
    (ht : job.jobType = "summarize_note")
    (he : env jid = HandlerOutcome.failure pw)
    (h2 : job.maxAttempts ≤ job.attempts + 1) :
    findNote (processJob env s jid) job.noteId
      = (findNote s job.noteId).map (fun n => { n with status := NoteStatus.FAILED }) := by
  rw [processJob_fail_exhaust hfind hex ht he h2]
  cases pw
  · show findNote
        (noteSetStatus (jobSetStatus (jobDispatch s jid) jid JobStatus.failed)
          job.noteId NoteStatus.FAILED) job.noteId = _
    rw [findNote_noteSetStatus_self, findNote_jobSetStatus, findNote_jobDispatch]
  · show findNote
        (noteSetStatus
          (jobSetStatus
            (noteSetStatus (jobDispatch s jid) job.noteId NoteStatus.PROCESSING)
            jid JobStatus.failed)
          job.noteId NoteStatus.FAILED) job.noteId = _
    rw [findNote_noteSetStatus_self, findNote_jobSetStatus,
      findNote_noteSetStatus_self, findNote_jobDispatch]
    cases findNote s job.noteId <;> rfl

theorem processJob_fail_requeue_findJob {env : HandlerEnv} {s : ManagerState}
    {jid : String} {job : Job} {pw : Bool}
    (hfind : findJob s jid = some job)
    (hex : ¬ job.maxAttempts ≤ job.attempts)
    (ht : job.jobType = "summarize_note")
    (he : env jid = HandlerOutcome.failure pw)
    (h2 : ¬ job.maxAttempts ≤ job.attempts + 1) :
    findJob (processJob env s jid) jid
      = some { job with status := JobStatus.queued, attempts := job.attempts + 1 } := by
  rw [processJob_fail_requeue hfind hex ht he h2]
  cases pw
  · show findJob (jobSetStatus (jobDispatch s jid) jid JobStatus.queued) jid = _
    rw [findJob_jobSetStatus_self, findJob_jobDispatch_self, hfind]
    rfl
  · show findJob
        (jobSetStatus
          (noteSetStatus (jobDispatch s jid) job.noteId NoteStatus.PROCESSING)
          jid JobStatus.queued) jid = _
    rw [findJob_jobSetStatus_self, findJob_noteSetStatus,
      findJob_jobDispatch_self, hfind]
    rfl

theorem processJob_fail_requeue_findNote {env : HandlerEnv} {s : ManagerState}
    {jid : String} {job : Job} {pw : Bool}
    (hfind : findJob s jid = some job)
    (hex : ¬ job.maxAttempts ≤ job.attempts)
    (ht : job.jobType = "summarize_note")
    (he : env jid = HandlerOutcome.failure pw)
    (h2 : ¬ job.maxAttempts ≤ job.attempts + 1) :
    findNote (processJob env s jid) job.noteId
      = (if pw then
          (findNote s job.noteId).map (fun n => { n with status := NoteStatus.PROCESSING })
        else findNote s job.noteId) := by
  rw [processJob_fail_requeue hfind hex ht he h2]
  cases pw
  · show findNote (jobSetStatus (jobDispatch s jid) jid JobStatus.queued) job.noteId
        = findNote s job.noteId
    rw [findNote_jobSetStatus, findNote_jobDispatch]
  · show findNote
        (jobSetStatus
          (noteSetStatus (jobDispatch s jid) job.noteId NoteStatus.PROCESSING)
          jid JobStatus.queued) job.noteId
        = (findNote s job.noteId).map (fun n => { n with status := NoteStatus.PROCESSING })
    rw [findNote_jobSetStatus, findNote_noteSetStatus_self, findNote_jobDispatch]

theorem processJob_success_findJob {env : HandlerEnv} {s : ManagerState}
    {jid : String} {job : Job} {m : String}
    (hfind : findJob s jid = some job)
    (hex : ¬ job.maxAttempts ≤ job.attempts)
    (ht : job.jobType = "summarize_note")
    (he : env jid = HandlerOutcome.success m) :
    findJob (processJob env s jid) jid
      = some { job with status := JobStatus.completed, attempts := job.attempts + 1 } := by
  rw [processJob_success hfind hex ht he]
  rw [findJob_jobSetStatus_self, findJob_noteComplete, findJob_noteSetStatus,
    findJob_jobDispatch_self, hfind]
  rfl

theorem processJob_success_findNote {env : HandlerEnv} {s : ManagerState}
    {jid : String} {job : Job} {m : String}
    (hfind : findJob s jid = some job)
    (hex : ¬ job.maxAttempts ≤ job.attempts)
    (ht : job.jobType = "summarize_note")
    (he : env jid = HandlerOutcome.success m) :
    findNote (processJob env s jid) job.noteId
      = (findNote s job.noteId).map
          (fun n => { n with status := NoteStatus.DONE, summary := some m }) := by
  rw [processJob_success hfind hex ht he]
  rw [findNote_jobSetStatus, findNote_noteComplete_self,
    findNote_noteSetStatus_self, findNote_jobDispatch]
  cases findNote s job.noteId <;> rfl


/-- Claim C1: for a dispatched `summarize_note` job whose handler invocation
raises during a scan (`processJob` is the per-job step of one scan, and the
attempt counter has already been incremented for this attempt): if the
incremented counter has reached `max_attempts`, the job is marked `failed` and
the referenced note is set to `FAILED`; otherwise the job is reverted to
`queued` and the note is either untouched or, when the failure came after the
handler's initial write, left at `PROCESSING` — never set to `FAILED`. -/
theorem c1_handler_failure_retries_then_fails (env : HandlerEnv)
    (s : ManagerState) (jid : String) (job : Job) (pw : Bool)
    (hfind : findJob s jid = some job)
    (hdisp : job.attempts < job.maxAttempts)
    (ht : job.jobType = "summarize_note")
    (hfail : env jid = HandlerOutcome.failure pw) :
    (job.maxAttempts ≤ job.attempts + 1 →
      jobStatusOf (processJob env s jid) jid = some JobStatus.failed
      ∧ findNote (processJob env s jid) job.noteId
          = (findNote s job.noteId).map (fun n => { n with status := NoteStatus.FAILED }))
    ∧ (job.attempts + 1 < job.maxAttempts →
      jobStatusOf (processJob env s jid) jid = some JobStatus.queued
      ∧ findNote (processJob env s jid) job.noteId
          = (if pw then
              (findNote s job.noteId).map (fun n => { n with status := NoteStatus.PROCESSING })
            else findNote s job.noteId)) := by
  have hex : ¬ job.maxAttempts ≤ job.attempts := by omega
  constructor
  · intro h2
    refine ⟨?_, processJob_fail_exhaust_findNote hfind hex ht hfail h2⟩
    rw [jobStatusOf, processJob_fail_exhaust_findJob hfind hex ht hfail h2]
    rfl
  · intro hlt
    have h2 : ¬ job.maxAttempts ≤ job.attempts + 1 := by omega
    refine ⟨?_, processJob_fail_requeue_findNote hfind hex ht hfail h2⟩
    rw [jobStatusOf, processJob_fail_requeue_findJob hfind hex ht hfail h2]
    rfl

/-- Claim C2: in every reachable manager state no job's attempt counter
exceeds its max attempts (in particular while it is `queued` or
`processing`), and across any further sequence of scheduler scans the
counter of each job never decreases and stays within the bound. -/
theorem c2_attempts_monotone_and_bounded {s : ManagerState}
    (hs : Reachable s) (envs : List HandlerEnv) :
    (∀ j ∈ s.jobs, j.attempts ≤ j.maxAttempts)
    ∧ (∀ j ∈ s.jobs, ∃ k ∈ (multiScan envs s).jobs,
        k.id = j.id ∧ k.maxAttempts = j.maxAttempts
        ∧ j.attempts ≤ k.attempts ∧ k.attempts ≤ k.maxAttempts) := by
  refine ⟨(reachable_inv hs).2.2.2.2.1, ?_⟩
  intro j hj
  rcases multiScan_attempts_mono envs hj with ⟨k, hk, hkid, hkmax, hkatt⟩
  have hbd := (reachable_inv (reachable_multiScan envs hs)).2.2.2.2.1 k hk
  exact ⟨k, hk, hkid, hkmax, hkatt, hbd⟩

/-- Claim C3: in every reachable manager state, every job whose status is
`failed` has `attempts = max_attempts`, and the note referenced by its
payload has status `FAILED`. -/
theorem c3_failed_implies_exhausted_and_note_failed {s : ManagerState}
    (hs : Reachable s) :
    ∀ j ∈ s.jobs, j.status = JobStatus.failed →
      j.attempts = j.maxAttempts
      ∧ noteStatusOf s j.noteId = some NoteStatus.FAILED :=
  (reachable_inv hs).2.2.2.2.2.2

/-- Claim C4 (counter-evidence): `start` unconditionally creates a new
`_process_jobs` task; calling `start()` twice on a fresh manager leaves
the running flag set throughout (so no launched loop has exited) and two
scheduling-loop tasks launched — the code does not guard against a second
loop, contradicting the claimed idempotence. -/
theorem c4_start_twice_launches_two_loops :
    (start (start initialState)).running = true
    ∧ (start (start initialState)).loopTasksLaunched = 2 :=
  ⟨rfl, rfl⟩

/-- Claim C5: a freshly submitted `summarize_note` job whose handler fails on
the first scan (with or without the early `PROCESSING` write) and succeeds
on the second ends, after those two scans, `completed` with `attempts = 2`,
and its note is `DONE` carrying the returned summary. -/
theorem c5_fail_once_then_succeed (jid raw m : String) (nid now : Nat)
    (env1 env2 : HandlerEnv) (pw : Bool)
    (h1 : env1 jid = HandlerOutcome.failure pw)
    (h2 : env2 jid = HandlerOutcome.success m) :
    findJob (scanStep env2 (scanStep env1
        (add_job (createNote initialState nid) jid "summarize_note" nid raw now))) jid
      = some { id := jid, jobType := "summarize_note", noteId := nid, rawText := raw,
               status := JobStatus.completed, createdAt := now, attempts := 2,
               maxAttempts := 3 }
    ∧ findNote (scanStep env2 (scanStep env1
        (add_job (createNote initialState nid) jid "summarize_note" nid raw now))) nid
      = some { id := nid, status := NoteStatus.DONE, summary := some m } := by
  cases pw <;>
    simp [scanStep, queuedIds, processJob, findJob, findNote, add_job, createNote,
      initialState, freshJob, updJobs, updNotes, updKey, jobSetStatus, jobDispatch,
      noteSetStatus, noteComplete, h1, h2]

/-- Claim C6: `add_job` always stores a fresh record with status `queued`
and `attempts = 0` under the given id, silently overwriting any existing
record with that id, never raising, and leaving every other id's record
untouched. -/
theorem c6_add_job_inserts_fresh_overwrites (s : ManagerState)
    (jid jtype : String) (nid : Nat) (raw : String) (now : Nat) :
    findJob (add_job s jid jtype nid raw now) jid
        = some (freshJob jid jtype nid raw now)
    ∧ (freshJob jid jtype nid raw now).status = JobStatus.queued
    ∧ (freshJob jid jtype nid raw now).attempts = 0
    ∧ (∀ jid2, jid2 ≠ jid →
        findJob (add_job s jid jtype nid raw now) jid2 = findJob s jid2) := by
  by_cases hc : s.jobs.any (fun j => decide (j.id = jid)) = true
  · have he : add_job s jid jtype nid raw now
        = { s with jobs := updKey Job.id s.jobs jid (fun _ => freshJob jid jtype nid raw now) } := by
      unfold add_job
      rw [if_pos hc]
      rfl
    rw [he]
    refine ⟨?_, rfl, rfl, ?_⟩
    · show (updKey Job.id s.jobs jid _).find? _ = _
      have hkey : ∀ a : Job, Job.id a = jid →
          Job.id ((fun _ => freshJob jid jtype nid raw now) a) = jid :=
        fun a ha => rfl
      rw [updKey_find?_self2 hkey]
      rcases List.any_eq_true.mp hc with ⟨x, hx, hpx⟩
      have hsome : (s.jobs.find? (fun j => decide (j.id = jid))).isSome := by
        rw [List.find?_isSome]
        exact ⟨x, hx, hpx⟩
      rcases Option.isSome_iff_exists.mp hsome with ⟨j0, hj0⟩
      rw [hj0]
      rfl
    · intro jid2 hne
      show (updKey Job.id s.jobs jid _).find? _ = _
      have hkey : ∀ a : Job, Job.id a = jid →
          Job.id ((fun _ => freshJob jid jtype nid raw now) a) = jid :=
        fun a ha => rfl
      exact updKey_find?_ne2 hkey hne
  · have hc' : s.jobs.any (fun j => decide (j.id = jid)) = false := by
      simpa using hc
    have he : add_job s jid jtype nid raw now
        = { s with jobs := s.jobs ++ [freshJob jid jtype nid raw now] } := by
      unfold add_job
      rw [if_neg hc]
    rw [he]
    refine ⟨?_, rfl, rfl, ?_⟩
    · show (s.jobs ++ [freshJob jid jtype nid raw now]).find? _ = _
      rw [List.find?_append]
      have hnone : s.jobs.find? (fun j => decide (j.id = jid)) = none := by
        rw [List.find?_eq_none]
        intro x hx
        simpa using List.any_eq_false.mp hc' x hx
      rw [hnone, Option.none_or]
      exact List.find?_cons_of_pos _ (by simp [freshJob])
    · intro jid2 hne
      show (s.jobs ++ [freshJob jid jtype nid raw now]).find? _ = _
      rw [List.find?_append]
      have hnone2 : [freshJob jid jtype nid raw now].find?
          (fun j => decide (j.id = jid2)) = none := by
        rw [List.find?_eq_none]
        intro x hx
        rcases List.mem_singleton.mp hx with rfl
        simp [freshJob]
        exact fun he2 => hne he2.symm
      rw [hnone2]
      exact Option.or_none

/-- Claim C7: `get_job_status` is a total function: a known id yields the
job's full current record, an unknown id yields the sentinel whose status
field is the string `"not_found"`, and repeated calls without intervening
mutation return identical results. -/
theorem c7_get_job_status_total (s : ManagerState) (jid : String) :
    (∀ j, findJob s jid = some j → get_job_status s jid = JobView.found j)
    ∧ (findJob s jid = none →
        get_job_status s jid = JobView.notFound
        ∧ (get_job_status s jid).statusField = "not_found")
    ∧ get_job_status s jid = get_job_status s jid := by
  refine ⟨?_, ?_, rfl⟩
  · intro j h
    unfold get_job_status
    rw [h]
  · intro h
    unfold get_job_status
    rw [h]
    exact ⟨rfl, rfl⟩

/-- Claim C8: an error raised by the scan machinery itself (a `crash`
iteration, caught by the outer `except`) never terminates the scheduling
loop: the crashed iteration still counts and the loop proceeds to the
remaining iterations with the running flag still set; only clearing the
flag via `stop` makes the loop execute no further iteration. -/
theorem c8_loop_survives_machinery_error (s : ManagerState)
    (h : s.running = true) (env : HandlerEnv) (k : Nat)
    (es : List IterEvent) :
    loopIterations (IterEvent.crash env k :: es) s
        = loopIterations es (iterStep (IterEvent.crash env k) s) + 1
    ∧ (iterStep (IterEvent.crash env k) s).running = true
    ∧ (∀ evs : List IterEvent, ∀ s2 : ManagerState,
        loopIterations evs (stop s2) = 0) := by
  refine ⟨?_, ?_, ?_⟩
  · simp [loopIterations, h]
  · rw [iterStep_running]
    exact h
  · intro evs s2
    cases evs with
    | nil => rfl
    | cons e es2 => simp [loopIterations, stop]

/-- Claim C9: a submitted job of a type other than `"summarize_note"`
(unique ids, its note not shared with another job) is dispatched by the
first scan to `processing` with `attempts = 1`, and any sequence of later
scans leaves that record exactly as is — never retried, completed or
failed — and never touches its note. -/
theorem c9_unknown_type_stuck_in_processing {s : ManagerState}
    {jid jtype raw : String} {nid now : Nat}
    (hids : UniqueJobIds s)
    (hfind : findJob s jid = some (freshJob jid jtype nid raw now))
    (ht : jtype ≠ "summarize_note")
    (hown : ∀ j ∈ s.jobs, j.id = jid ∨ j.noteId ≠ nid)
    (env : HandlerEnv) (envs : List HandlerEnv) :
    findJob (multiScan envs (scanStep env s)) jid
        = some { freshJob jid jtype nid raw now with
                 status := JobStatus.processing, attempts := 1 }
    ∧ findNote (multiScan envs (scanStep env s)) nid = findNote s nid := by
  have hlt : (freshJob jid jtype nid raw now).attempts
      < (freshJob jid jtype nid raw now).maxAttempts := by
    show (0 : Nat) < 3
    decide
  have h1 := scanStep_dispatches_other env hids hfind rfl hlt ht hown
  have hids1 : UniqueJobIds (scanStep env s) := by
    rw [UniqueJobIds, scanStep_jobs_ids]
    exact hids
  have hnq : ({ freshJob jid jtype nid raw now with
      status := JobStatus.processing,
      attempts := (freshJob jid jtype nid raw now).attempts + 1 } : Job).status
      ≠ JobStatus.queued := by
    show JobStatus.processing ≠ JobStatus.queued
    decide
  have hown1 : ∀ j ∈ (scanStep env s).jobs, j.id = jid ∨ j.noteId ≠ nid :=
    foldl_preserves_noteOwned hown
  rcases multiScan_nonqueued envs hids1 h1.1 hnq hown1 with ⟨ha, hb⟩
  exact ⟨ha, hb.trans h1.2⟩

/-- Claim C10: in every reachable manager state every queued job has
attempts strictly below its max attempts, and consequently a scan behaves
identically to a scan with the scan-start exhaustion branch removed — that
branch is dead code; exhaustion is only ever detected in the post-failure
check. -/
theorem c10_entry_exhaustion_branch_dead {s : ManagerState}
    (hs : Reachable s) :
    (∀ j ∈ s.jobs, j.status = JobStatus.queued → j.attempts < j.maxAttempts)
    ∧ ∀ env, scanStep env s = scanStepDispatchOnly env s := by
  have hInv := reachable_inv hs
  exact ⟨hInv.2.2.2.2.2.1, fun env => scanStep_eq_dispatchOnly hInv env⟩


theorem reachable_demoSubmit : Reachable demoSubmit :=
  Reachable.submit "j1" 1 "text" 0 Reachable.init (by simp [initialState])
    (by simp [initialState]) (by simp [initialState])

theorem reachable_demoFailed : Reachable demoFailed :=
  Reachable.scan demoEnvFail (Reachable.scan demoEnvFail
    (Reachable.scan demoEnvFail reachable_demoSubmit))

theorem c1_witness :
    jobStatusOf (processJob demoEnvFail demoSubmit "j1") "j1"
        = some JobStatus.queued
    ∧ findNote (processJob demoEnvFail demoSubmit "j1") 1
        = (findNote demoSubmit 1).map
            (fun n => { n with status := NoteStatus.PROCESSING }) :=
  (c1_handler_failure_retries_then_fails demoEnvFail demoSubmit "j1"
      (freshJob "j1" "summarize_note" 1 "text" 0) true (by decide) (by decide)
      rfl rfl).2 (by decide)

theorem c2_witness :
    (∀ j ∈ demoSubmit.jobs, j.attempts ≤ j.maxAttempts)
    ∧ (∀ j ∈ demoSubmit.jobs, ∃ k ∈ (multiScan [demoEnvFail] demoSubmit).jobs,
        k.id = j.id ∧ k.maxAttempts = j.maxAttempts
        ∧ j.attempts ≤ k.attempts ∧ k.attempts ≤ k.maxAttempts) :=
  c2_attempts_monotone_and_bounded reachable_demoSubmit [demoEnvFail]

theorem c3_witness :
    (3 : Nat) = 3 ∧ noteStatusOf demoFailed 1 = some NoteStatus.FAILED :=
  c3_failed_implies_exhausted_and_note_failed reachable_demoFailed
    { id := "j1", jobType := "summarize_note", noteId := 1, rawText := "text",
      status := JobStatus.failed, createdAt := 0, attempts := 3,
      maxAttempts := 3 }
    (by decide) rfl

theorem c5_witness :
    findJob (scanStep demoEnvOk (scanStep demoEnvFail
        (add_job (createNote initialState 1) "j1" "summarize_note" 1 "text" 0))) "j1"
      = some { id := "j1", jobType := "summarize_note", noteId := 1,
               rawText := "text", status := JobStatus.completed, createdAt := 0,
               attempts := 2, maxAttempts := 3 }
    ∧ findNote (scanStep demoEnvOk (scanStep demoEnvFail
        (add_job (createNote initialState 1) "j1" "summarize_note" 1 "text" 0))) 1
      = some { id := 1, status := NoteStatus.DONE, summary := some "S" } :=
  c5_fail_once_then_succeed "j1" "text" "S" 1 0 demoEnvFail demoEnvOk true rfl rfl

theorem c6_witness :
    findJob (add_job demoSubmit "j1" "summarize_note" 2 "again" 5) "j1"
        = some (freshJob "j1" "summarize_note" 2 "again" 5)
    ∧ (freshJob "j1" "summarize_note" 2 "again" 5).status = JobStatus.queued
    ∧ (freshJob "j1" "summarize_note" 2 "again" 5).attempts = 0
    ∧ findJob (add_job demoSubmit "j1" "summarize_note" 2 "again" 5) "other"
        = findJob demoSubmit "other" := by
  have h := c6_add_job_inserts_fresh_overwrites demoSubmit "j1" "summarize_note"
    2 "again" 5
  exact ⟨h.1, h.2.1, h.2.2.1, h.2.2.2 "other" (by decide)⟩

theorem c7_witness :
    get_job_status demoSubmit "nope" = JobView.notFound
    ∧ (get_job_status demoSubmit "nope").statusField = "not_found" :=
  (c7_get_job_status_total demoSubmit "nope").2.1 (by decide)

theorem c8_witness :
    loopIterations [IterEvent.crash demoEnvFail 0] (start initialState)
        = loopIterations [] (iterStep (IterEvent.crash demoEnvFail 0)
            (start initialState)) + 1
    ∧ (iterStep (IterEvent.crash demoEnvFail 0) (start initialState)).running = true
    ∧ (∀ evs : List IterEvent, ∀ s2 : ManagerState,
        loopIterations evs (stop s2) = 0) :=
  c8_loop_survives_machinery_error (start initialState) rfl demoEnvFail 0 []

theorem c9_witness :
    findJob (multiScan [demoEnvOk] (scanStep demoEnvFail demoOther)) "j1"
        = some { freshJob "j1" "reindex" 1 "t" 0 with
                 status := JobStatus.processing, attempts := 1 }
    ∧ findNote (multiScan [demoEnvOk] (scanStep demoEnvFail demoOther)) 1
        = findNote demoOther 1 :=
  c9_unknown_type_stuck_in_processing
    (by show (demoOther.jobs.map Job.id).Nodup
        decide)
    (by decide) (by decide) (by decide) demoEnvFail [demoEnvOk]

theorem c10_witness :
    scanStep demoEnvFail demoSubmit = scanStepDispatchOnly demoEnvFail demoSubmit :=
  (c10_entry_exhaustion_branch_dead reachable_demoSubmit).2 demoEnvFail

end AISummarizer
